import Mathlib

/-!
# Verification of the D2D sales-coach server

A shallow embedding of the Express server (`server.js` and its variants):
the in-memory conversation session, the knowledge-base store and its
60-second cache, the system-prompt builder, the manager aggregation
(improvement trend and category averages), and the tolerant JSON
extraction pipeline of `POST /analyze`, together with theorems settling
the specification claims about them.

Conventions of the embedding:
* JavaScript strings are modelled as Lean `String` / `List Char`
  (sequences of Unicode scalar values).
* `Date.now()` timestamps are modelled as integers (milliseconds).
* The external model provider and the SQL store are parameters: a model
  call is an `Except String String` argument, the `sessions` /
  `knowledge_files` tables are lists of records carried in an explicit
  state, and `ORDER BY` is modelled as sorting on the key.
* Real-number arithmetic of the aggregate computations is modelled with
  `ℚ`; `Math.round x` is `⌊x + 1/2⌋`, which is its JavaScript semantics.
-/

/-- The set of characters treated as whitespace by JavaScript's `trim`
and by the `\s` regex class (ECMAScript WhiteSpace ∪ LineTerminator). -/
def isJsWs (c : Char) : Bool :=
  c.toNat = 0x20 || c.toNat = 0x9 || c.toNat = 0xa || c.toNat = 0xd ||
  c.toNat = 0xb || c.toNat = 0xc ||
  c.toNat = 0xa0 || c.toNat = 0x1680 || (0x2000 ≤ c.toNat && c.toNat ≤ 0x200a) ||
  c.toNat = 0x2028 || c.toNat = 0x2029 || c.toNat = 0x202f || c.toNat = 0x205f ||
  c.toNat = 0x3000 || c.toNat = 0xfeff

/-- JavaScript `String.prototype.trim`: strip `isJsWs` characters from
both ends. -/
def jsTrim (s : List Char) : List Char :=
  ((s.dropWhile isJsWs).reverse.dropWhile isJsWs).reverse

/-- Whitespace-trimmed copy of a `String` (JS `s.trim()`). -/
def jsTrimS (s : String) : String :=
  String.mk (jsTrim s.data)

/-- JS `s.slice(0, n)`: the first `n` characters of a string. -/
def jsSlice (n : Nat) (s : String) : String :=
  String.mk (s.data.take n)

/-! ## Conversation session (`conversationHistory`, `POST /chat`) -/

/-- One element of `conversationHistory`: `{ role, content }` where
`role` is the literal `'user'` (rep) or `'assistant'` (homeowner). -/
structure Turn where
  role : String
  content : String
deriving DecidableEq, Repr

/-- The validation-and-push step of `app.post('/chat')`: reject a message
that is empty or whitespace-only after trimming
(`if (!message || !message.trim())`), otherwise push
`{ role: 'user', content: message }` onto the history. -/
def appendRep (hist : List Turn) (message : String) : Except String (List Turn) :=
  if jsTrim message.data = [] then Except.error "Message is required."
  else Except.ok (hist ++ [⟨"user", message⟩])

/-- Observable outcome of one `POST /chat` request: HTTP status, error
body, response body, and the conversation history left behind. -/
structure ChatResult where
  status : Nat
  error : Option String
  response : Option String
  history : List Turn
deriving DecidableEq, Repr

/-- `app.post('/chat')`: validate and push the rep turn, then call the
model (`modelReply` abstracts `client.messages.create`); on success push
the assistant turn and answer 200, on a model failure the `catch` block
answers 500 — the rep turn pushed before the call is not rolled back. -/
def chatPost (hist : List Turn) (message : String)
    (modelReply : Except String String) : ChatResult :=
  match appendRep hist message with
  | Except.error e => ⟨400, some e, none, hist⟩
  | Except.ok h1 =>
    match modelReply with
    | Except.error e => ⟨500, some e, none, h1⟩
    | Except.ok reply => ⟨200, none, some reply, h1 ++ [⟨"assistant", reply⟩]⟩

/-- The transcript rendering shared by `/scorecard` and `/analyze`:
each turn becomes a `SALES REP:` / `HOMEOWNER/COACH:` labelled line and
lines are joined by blank lines. -/
def renderTranscript (hist : List Turn) : String :=
  String.intercalate "\n\n"
    (hist.map fun t =>
      (if t.role = "user" then "SALES REP: " else "HOMEOWNER/COACH: ") ++ t.content)

/-! ## Knowledge store and its cache -/

/-- A row of the `knowledge_files` table. -/
structure KDoc where
  id : Nat
  filename : String
  content : String
  uploadedAt : Int
deriving DecidableEq, Repr

/-- A row of the prompt query
(`SELECT filename, content FROM knowledge_files ORDER BY uploaded_at`). -/
structure PromptRow where
  filename : String
  content : String
deriving DecidableEq, Repr

/-- The ascending `ORDER BY uploaded_at` of the prompt query, modelled as
a sort on the key. -/
def promptOrder (storage : List KDoc) : List KDoc :=
  List.insertionSort (fun a b => a.uploadedAt ≤ b.uploadedAt) storage

/-- `SELECT filename, content FROM knowledge_files ORDER BY uploaded_at`. -/
def sqlSelectForPrompt (storage : List KDoc) : List PromptRow :=
  (promptOrder storage).map fun d => ⟨d.filename, d.content⟩

/-- The module-level mutable state around the knowledge base: the
`knowledge_files` table, `knowledgeCache` and `knowledgeCacheTime`. -/
structure KBState where
  storage : List KDoc
  knowledgeCache : Option (List PromptRow)
  knowledgeCacheTime : Int
deriving DecidableEq, Repr

/-- Result of one `getKnowledgeBase()` call: the rows returned, the state
left behind, and whether the storage query was executed. -/
structure KBRead where
  rows : List PromptRow
  state : KBState
  storageRead : Bool
deriving DecidableEq, Repr

/-- `getKnowledgeBase()`: serve the cached rows while
`knowledgeCache && (now - knowledgeCacheTime) < 60_000`, otherwise run
the storage query, refresh the cache and its timestamp. -/
def getKnowledgeBase (st : KBState) (now : Int) : KBRead :=
  match st.knowledgeCache with
  | some c =>
    if now - st.knowledgeCacheTime < 60000 then ⟨c, st, false⟩
    else
      let rows := sqlSelectForPrompt st.storage
      ⟨rows, ⟨st.storage, some rows, now⟩, true⟩
  | none =>
    let rows := sqlSelectForPrompt st.storage
    ⟨rows, ⟨st.storage, some rows, now⟩, true⟩

/-- Observable outcome of one `POST /knowledge-file` request. -/
structure KFileResult where
  status : Nat
  error : Option String
  id : Option Nat
deriving DecidableEq, Repr

/-- `app.post('/knowledge-file')`: reject when `!filename || !content`
(i.e. either field is the empty string), otherwise insert the trimmed
values and set `knowledgeCache = null`.  `newId` abstracts the SERIAL
key and `now` the row's `uploaded_at`. -/
def knowledgeFilePost (st : KBState) (filename content : String)
    (newId : Nat) (now : Int) : KFileResult × KBState :=
  if filename = "" || content = "" then
    (⟨400, some "filename and content required.", none⟩, st)
  else
    (⟨200, none, some newId⟩,
      ⟨st.storage ++ [⟨newId, jsTrimS filename, jsTrimS content, now⟩],
        none, st.knowledgeCacheTime⟩)

/-- `app.delete('/knowledge-file/:id')`: delete the row (idempotent) and
set `knowledgeCache = null`. -/
def knowledgeDelete (st : KBState) (id : Nat) : KBState :=
  ⟨st.storage.filter (fun d => d.id ≠ id), none, st.knowledgeCacheTime⟩

/-- A row of `GET /knowledge-files`
(`SELECT id, filename, LEFT(content, 120) AS preview, uploaded_at ...
ORDER BY uploaded_at DESC`). -/
structure KFileListRow where
  id : Nat
  filename : String
  preview : String
  uploadedAt : Int
deriving DecidableEq, Repr

/-- The descending `ORDER BY uploaded_at DESC` of the listing query. -/
def listOrder (storage : List KDoc) : List KDoc :=
  List.insertionSort (fun a b => b.uploadedAt ≤ a.uploadedAt) storage

/-- `GET /knowledge-files`: id, filename, 120-character preview and
upload time, newest first. -/
def listKnowledgeFiles (storage : List KDoc) : List KFileListRow :=
  (listOrder storage).map fun d => ⟨d.id, d.filename, jsSlice 120 d.content, d.uploadedAt⟩

/-! ## System prompt construction (`buildSystemPrompt`) -/

/-- The base homeowner persona script (`BASE_SYSTEM_PROMPT`). -/
def BASE_SYSTEM_PROMPT : String :=
  "You are roleplaying as a skeptical homeowner. A door-to-door roofing sales rep has just knocked on your door. You are mildly annoyed but willing to listen. After each rep message, respond in character as the homeowner, then on a new line add: COACH: [1-2 sentences of direct, specific feedback on the rep's technique and vocal delivery. If the message includes voice metrics (WPM, energy, pitch, filler words), address them explicitly — ideal sales pace is 130-150 WPM, energy should be warm and confident, filler words undermine credibility, monotone delivery kills rapport. Always say what to do differently. If training materials are provided below, reference them specifically when relevant.]"

/-- The fixed header announcing the training materials. -/
def TRAINING_HEADER : String :=
  "\n\n[TRAINING MATERIALS — reference these when coaching]\n"

/-- One knowledge-base block:
`--- ${f.filename} ---\n${f.content.slice(0, 3000)}`. -/
def kbBlock (f : PromptRow) : String :=
  "--- " ++ f.filename ++ " ---\n" ++ jsSlice 3000 f.content

/-- `buildSystemPrompt()` given the rows the knowledge base returned:
the base script alone when there are no files, otherwise the base script,
the training-materials header, and the blocks joined by blank lines. -/
def buildSystemPrompt (files : List PromptRow) : String :=
  if files.isEmpty then BASE_SYSTEM_PROMPT
  else BASE_SYSTEM_PROMPT ++ TRAINING_HEADER ++
    String.intercalate "\n\n" (files.map kbBlock)

/-! ## Manager aggregation (`GET /manager/reps`) -/

/-- JavaScript `Math.round`: round half toward positive infinity. -/
def jsRound (q : ℚ) : ℤ :=
  ⌊q + 1 / 2⌋

/-- The per-category scores of one stored analysis, as reachable by
`a.breakdown?.[k]?.score`.  Since the aggregation immediately collapses
a missing `breakdown`, a missing key and a `null` score with its
`v != null` filter, each category is modelled as one `Option ℤ`. -/
structure BreakdownOpt where
  opening : Option ℤ
  objectionHandling : Option ℤ
  rapport : Option ℤ
  tonality : Option ℤ
  timing : Option ℤ
  closing : Option ℤ
deriving DecidableEq, Repr

/-- The six fixed aggregation categories (`catKeys`). -/
inductive CatKey where
  | opening
  | objectionHandling
  | rapport
  | tonality
  | timing
  | closing
deriving DecidableEq, Repr

/-- Field lookup of one category. -/
def getCat (b : BreakdownOpt) : CatKey → Option ℤ
  | CatKey.opening => b.opening
  | CatKey.objectionHandling => b.objectionHandling
  | CatKey.rapport => b.rapport
  | CatKey.tonality => b.tonality
  | CatKey.timing => b.timing
  | CatKey.closing => b.closing

/-- The fields of one element of `all_analyses` that the aggregation
reads (`a.overall`, `a.breakdown`, `a.keyImprovement`). -/
structure AnalysisView where
  overall : Option ℤ
  breakdown : Option BreakdownOpt
  keyImprovement : Option String
deriving DecidableEq, Repr

/-- `a.breakdown?.[k]?.score`, `none` when any hop is missing. -/
def catScoreOf (a : AnalysisView) (k : CatKey) : Option ℤ :=
  match a.breakdown with
  | none => none
  | some b => getCat b k

/-- `analyses.map(a => a.overall || 0)`: the newest-first score sequence
(`all_analyses` is aggregated `ORDER BY created_at DESC`). -/
def scoresOf (analyses : List AnalysisView) : List ℤ :=
  analyses.map fun a => a.overall.getD 0

/-- The trend computation of `GET /manager/reps`: with at least 4
scores, `half = floor(n/2)`, average of the first `half` (newer) minus
average of the last `half` (older, `scores.slice(-half)`), rounded;
otherwise `null`. -/
def improvementOf (analyses : List AnalysisView) : Option ℤ :=
  let scores := scoresOf analyses
  if 4 ≤ scores.length then
    let half := scores.length / 2
    let newer : ℚ := ((scores.take half).sum : ℚ) / (half : ℚ)
    let older : ℚ := ((scores.drop (scores.length - half)).sum : ℚ) / (half : ℚ)
    some (jsRound (newer - older))
  else none

/-- `analyses.map(a => a.breakdown?.[k]?.score).filter(v => v != null)`. -/
def catValsOf (analyses : List AnalysisView) (k : CatKey) : List ℤ :=
  analyses.filterMap fun a => catScoreOf a k

/-- One entry of `catAvgs`: `null` when no session has the category,
otherwise `Math.round` of the arithmetic mean of the present values. -/
def catAvgOf (analyses : List AnalysisView) (k : CatKey) : Option ℤ :=
  let vals := catValsOf analyses k
  if vals.isEmpty then none
  else some (jsRound ((vals.sum : ℚ) / (vals.length : ℚ)))

/-! ## JSON values and `JSON.parse`

The extraction pipeline of `POST /analyze` ends in `JSON.parse`.  JSON
values are embedded as the inductive `Json`; numeric literals are
modelled as arbitrary-precision integers, since every number this
service produces or consumes is an integer score and IEEE-754 float
semantics are outside the embedding. -/

inductive Json where
  | null : Json
  | bool : Bool → Json
  | num : Int → Json
  | str : String → Json
  | arr : List Json → Json
  | obj : List (String × Json) → Json

/-- The four JSON whitespace characters accepted by `JSON.parse`. -/
def isJsonWs (c : Char) : Bool :=
  c.toNat = 0x20 || c.toNat = 0x9 || c.toNat = 0xa || c.toNat = 0xd

/-- Skip insignificant JSON whitespace. -/
def skipWs (cs : List Char) : List Char :=
  cs.dropWhile isJsonWs

/-- Value of one hexadecimal digit (`0-9a-fA-F`). -/
def hexDigitVal? (c : Char) : Option Nat :=
  if 48 ≤ c.toNat ∧ c.toNat ≤ 57 then some (c.toNat - 48)
  else if 97 ≤ c.toNat ∧ c.toNat ≤ 102 then some (c.toNat - 87)
  else if 65 ≤ c.toNat ∧ c.toNat ≤ 70 then some (c.toNat - 55)
  else none

/-- Body of a JSON string literal, after the opening quote: plain
characters until the closing quote, with the escapes `\" \\ \/ \b \f
\n \r \t \uXXXX`; unescaped control characters are rejected, as in
`JSON.parse`.  Returns the decoded characters and the input after the
closing quote. -/
def parseStringBody : List Char → Option (List Char × List Char)
  | [] => none
  | c :: rest =>
    if c = '"' then some ([], rest)
    else if c = '\\' then
      match rest with
      | [] => none
      | e :: r =>
        if e = '"' then (parseStringBody r).map fun p => ('"' :: p.1, p.2)
        else if e = '\\' then (parseStringBody r).map fun p => ('\\' :: p.1, p.2)
        else if e = '/' then (parseStringBody r).map fun p => ('/' :: p.1, p.2)
        else if e = 'b' then (parseStringBody r).map fun p => ('\x08' :: p.1, p.2)
        else if e = 'f' then (parseStringBody r).map fun p => ('\x0c' :: p.1, p.2)
        else if e = 'n' then (parseStringBody r).map fun p => ('\n' :: p.1, p.2)
        else if e = 'r' then (parseStringBody r).map fun p => ('\r' :: p.1, p.2)
        else if e = 't' then (parseStringBody r).map fun p => ('\t' :: p.1, p.2)
        else if e = 'u' then
          match r with
          | h1 :: h2 :: h3 :: h4 :: r2 =>
            match hexDigitVal? h1, hexDigitVal? h2, hexDigitVal? h3, hexDigitVal? h4 with
            | some d1, some d2, some d3, some d4 =>
              (parseStringBody r2).map fun p =>
                (Char.ofNat (((d1 * 16 + d2) * 16 + d3) * 16 + d4) :: p.1, p.2)
            | _, _, _, _ => none
          | _ => none
        else none
    else if c.toNat < 0x20 then none
    else (parseStringBody rest).map fun p => (c :: p.1, p.2)

/-- ASCII decimal digit test. -/
def isDigitC (c : Char) : Bool :=
  48 ≤ c.toNat && c.toNat ≤ 57

/-- Value of one decimal digit character. -/
def digitVal (c : Char) : Nat :=
  c.toNat - 48

/-- The digit run of a JSON number: nonempty, and no leading zero
(JSON rejects `01`). -/
def parseNatPart (cs : List Char) : Option (Nat × List Char) :=
  let ds := cs.takeWhile isDigitC
  if ds = [] then none
  else if 2 ≤ ds.length ∧ ds.head? = some '0' then none
  else some (ds.foldl (fun a c => 10 * a + digitVal c) 0, cs.dropWhile isDigitC)

/-- A JSON integer literal with optional minus sign. -/
def parseNumber (cs : List Char) : Option (Int × List Char) :=
  match cs with
  | [] => none
  | c :: rest =>
    if c = '-' then (parseNatPart rest).map fun p => (-(p.1 : Int), p.2)
    else (parseNatPart (c :: rest)).map fun p => ((p.1 : Int), p.2)

mutual

/-- Fueled recursive-descent JSON value parser; the fuel bounds the
recursion depth and is decremented on every nested call. -/
def parseValue : Nat → List Char → Option (Json × List Char)
  | 0, _ => none
  | Nat.succ f, cs =>
    match skipWs cs with
    | [] => none
    | c :: rest =>
      if c = '\x7b' then
        match skipWs rest with
        | '\x7d' :: r => some (Json.obj [], r)
        | r2 => (parseMembers f r2).map fun p => (Json.obj p.1, p.2)
      else if c = '[' then
        match skipWs rest with
        | ']' :: r => some (Json.arr [], r)
        | r2 => (parseElements f r2).map fun p => (Json.arr p.1, p.2)
      else if c = '"' then
        (parseStringBody rest).map fun p => (Json.str (String.mk p.1), p.2)
      else if c = 't' then
        if rest.take 3 = ['r', 'u', 'e'] then some (Json.bool true, rest.drop 3) else none
      else if c = 'f' then
        if rest.take 4 = ['a', 'l', 's', 'e'] then some (Json.bool false, rest.drop 4) else none
      else if c = 'n' then
        if rest.take 3 = ['u', 'l', 'l'] then some (Json.null, rest.drop 3) else none
      else if c = '-' || isDigitC c then
        (parseNumber (c :: rest)).map fun p => (Json.num p.1, p.2)
      else none

/-- One or more `"key": value` members, ending at the closing brace. -/
def parseMembers : Nat → List Char → Option (List (String × Json) × List Char)
  | 0, _ => none
  | Nat.succ f, cs =>
    match cs with
    | '"' :: r =>
      match parseStringBody r with
      | none => none
      | some (k, r1) =>
        match skipWs r1 with
        | ':' :: r2 =>
          match parseValue f r2 with
          | none => none
          | some (v, r3) =>
            match skipWs r3 with
            | ',' :: r4 =>
              match parseMembers f (skipWs r4) with
              | none => none
              | some (ms, r5) => some ((String.mk k, v) :: ms, r5)
            | '\x7d' :: r4 => some ([(String.mk k, v)], r4)
            | _ => none
        | _ => none
    | _ => none

/-- One or more array elements, ending at the closing bracket. -/
def parseElements : Nat → List Char → Option (List Json × List Char)
  | 0, _ => none
  | Nat.succ f, cs =>
    match parseValue f cs with
    | none => none
    | some (v, r1) =>
      match skipWs r1 with
      | ',' :: r2 =>
        match parseElements f r2 with
        | none => none
        | some (es, r3) => some (v :: es, r3)
      | ']' :: r2 => some ([v], r2)
      | _ => none

end

/-- `JSON.parse`: one value, then only trailing whitespace.  The fuel
`length + 64` exceeds the recursion depth any input can force, since
the depth never exceeds twice the number of consumed characters. -/
def jsonParse (cs : List Char) : Option Json :=
  match parseValue (cs.length + 64) cs with
  | some (v, rest) => if skipWs rest = [] then some v else none
  | none => none

/-! ## The two regular expressions of the extraction pipeline

`raw.match(/```(?:json)?\s*([\s\S]+?)\s*```/)` and
`jsonStr.match(/\{[\s\S]*\}/)`, embedded operationally with JavaScript's
leftmost-match, greedy/lazy backtracking order. -/

/-- After the lazy capture, the pattern continues `\s*` then a literal
closing fence.  Because a backtick is not whitespace, some split of the
leading whitespace run succeeds exactly when the fence starts right
after the whole run. -/
def tailOK (t : List Char) : Bool :=
  ['`', '`', '`'].isPrefixOf (t.dropWhile isJsWs)

/-- The lazy capture `([\s\S]+?)`: shortest nonempty prefix whose
remainder still matches `\s*` + closing fence; `acc` holds the reversed
characters captured so far. -/
def capLazyAux : List Char → List Char → Option (List Char)
  | _, [] => none
  | acc, c :: rest =>
    if tailOK rest then some (c :: acc).reverse
    else capLazyAux (c :: acc) rest

/-- Run the lazy capture from the start of `cs`. -/
def capLazy (cs : List Char) : Option (List Char) :=
  capLazyAux [] cs

/-- The greedy `\s*` after the opening fence/tag: try consuming `k+1`
characters first, backing off one at a time down to zero. -/
def afterTagAux : Nat → List Char → Option (List Char)
  | 0, cs => capLazy cs
  | Nat.succ k, cs => (capLazy (cs.drop (k + 1))).orElse fun _ => afterTagAux k cs

/-- Greedy leading `\s*` then lazy capture, starting from the position
after ` ``` ` (and the optional `json` tag). -/
def afterTag (cs : List Char) : Option (List Char) :=
  afterTagAux (cs.takeWhile isJsWs).length cs

/-- Attempt the fence pattern anchored at the current position: literal
` ``` `, then the greedy optional `json` tag, then `afterTag`. -/
def fenceMatchFrom (cs : List Char) : Option (List Char) :=
  if ['`', '`', '`'].isPrefixOf cs then
    let r := cs.drop 3
    if ['j', 's', 'o', 'n'].isPrefixOf r then
      (afterTag (r.drop 4)).orElse fun _ => afterTag r
    else afterTag r
  else none

/-- `raw.match(/```(?:json)?\s*([\s\S]+?)\s*```/)`, returning the first
capture group of the leftmost match. -/
def fenceCapture : List Char → Option (List Char)
  | [] => none
  | c :: cs => (fenceMatchFrom (c :: cs)).orElse fun _ => fenceCapture cs

/-- Drop everything before the first `\x7b` of the input, if any. -/
def dropToLBrace (s : List Char) : Option (List Char) :=
  match s.dropWhile (· != '\x7b') with
  | [] => none
  | l => some l

/-- Keep the input up to its last `\x7d` (which must come after the
leading `\x7b`), the greedy backtracking of `[\s\S]*`. -/
def takeToLastRBrace : List Char → Option (List Char)
  | [] => none
  | c :: rest =>
    match rest.reverse.dropWhile (· != '\x7d') with
    | [] => none
    | l => some (c :: l.reverse)

/-- `jsonStr.match(/\{[\s\S]*\}/)`: the substring from the first `\x7b`
to the last `\x7d`, if they exist in that order. -/
def braceExtract (s : List Char) : Option (List Char) :=
  (dropToLBrace s).bind takeToLastRBrace

/-! ## The extraction step of `POST /analyze` -/

/-- The candidate string handed to `JSON.parse`: trim, prefer a fenced
block's interior, then cut to the outermost braces
(lines 164–169 of the server). -/
def extractCandidate (raw : List Char) : List Char :=
  let t := jsTrim raw
  let jsonStr := (fenceCapture t).getD t
  (braceExtract jsonStr).getD jsonStr

/-- The whole extraction: `JSON.parse` on the candidate; a parse failure
is the `MalformedResponseError` of the design, carrying the raw model
text for diagnostics. -/
def extractAnalysis (raw : List Char) : Except (List Char) Json :=
  match jsonParse (extractCandidate raw) with
  | some v => Except.ok v
  | none => Except.error raw

/-- Modelled from the spec: the message of the `SyntaxError` thrown by
the platform's `JSON.parse` (the only part of the `/analyze` failure
path not in the repository) — a generic unexpected-token message that
the handler sends back instead of the raw model text. -/
def PARSE_ERROR_MESSAGE : String :=
  "Unexpected token in JSON"

/-- Observable outcome of one `POST /analyze` request. -/
structure AnalyzeResult where
  status : Nat
  error : Option String
  analysis : Option Json

/-- `app.post('/analyze')`: 400 on an empty conversation, otherwise run
the extraction on the model reply; the `catch` block turns a parse
failure into a 500 whose body is the parse error message. -/
def analyzePost (hist : List Turn) (modelReply : String) : AnalyzeResult :=
  if hist.isEmpty then ⟨400, some "No conversation to analyze.", none⟩
  else
    match extractAnalysis modelReply.data with
    | Except.ok v => ⟨200, none, some v⟩
    | Except.error _ => ⟨500, some PARSE_ERROR_MESSAGE, none⟩

/-! ## `JSON.stringify` of an AnalysisRecord-shaped object -/

/-- Lower-case hexadecimal digit, as emitted by `JSON.stringify`. -/
def hexDigitChar (n : Nat) : Char :=
  if n < 10 then Char.ofNat (48 + n) else Char.ofNat (87 + n)

/-- `JSON.stringify`'s escaping of one string character: quote,
backslash and the named control escapes, `\u00XX` for the remaining
control characters, everything else verbatim. -/
def escChar (c : Char) : List Char :=
  if c = '"' then ['\\', '"']
  else if c = '\\' then ['\\', '\\']
  else if c = '\x08' then ['\\', 'b']
  else if c = '\x0c' then ['\\', 'f']
  else if c = '\n' then ['\\', 'n']
  else if c = '\r' then ['\\', 'r']
  else if c = '\t' then ['\\', 't']
  else if c.toNat < 0x20 then
    ['\\', 'u', '0', '0', hexDigitChar (c.toNat / 16), hexDigitChar (c.toNat % 16)]
  else [c]

/-- Escape a whole character sequence. -/
def escapeChars : List Char → List Char
  | [] => []
  | c :: cs => escChar c ++ escapeChars cs

/-- A JSON string literal for `s`. -/
def serializeStr (s : String) : List Char :=
  '"' :: (escapeChars s.data ++ ['"'])

/-- Decimal digit character. -/
def digitChar (d : Nat) : Char :=
  Char.ofNat (48 + d)

/-- Decimal digits of a natural number, most significant first; the
fuel argument (any bound on the number) makes the recursion
structural. -/
def natToCharsAux : Nat → Nat → List Char
  | 0, _ => []
  | fuel + 1, n =>
    if n = 0 then [] else natToCharsAux fuel (n / 10) ++ [digitChar (n % 10)]

/-- Decimal digits of a natural number, most significant first. -/
def natToChars (n : Nat) : List Char :=
  if n = 0 then ['0'] else natToCharsAux n n

/-- `JSON.stringify` of an integer. -/
def intToChars (i : Int) : List Char :=
  if i < 0 then '-' :: natToChars i.natAbs else natToChars i.natAbs

/-- One `{ score, feedback }` category entry of an analysis. -/
structure CategoryScore where
  score : Int
  feedback : String
deriving DecidableEq, Repr

/-- An AnalysisRecord-shaped object: overall score, the six fixed
breakdown categories, and the three free-text fields, in the field
order the `/analyze` prompt requests. -/
structure AnalysisRecord where
  overall : Int
  opening : CategoryScore
  objectionHandling : CategoryScore
  rapport : CategoryScore
  tonality : CategoryScore
  timing : CategoryScore
  closing : CategoryScore
  summary : String
  keyStrength : String
  keyImprovement : String
deriving DecidableEq, Repr

/-- Shorthand for the characters of a literal. -/
def strL (s : String) : List Char :=
  s.data

/-- `JSON.stringify` of one category entry. -/
def serializeCat (c : CategoryScore) : List Char :=
  '\x7b' :: (strL "\"score\":" ++ intToChars c.score ++
    strL ",\"feedback\":" ++ serializeStr c.feedback ++ ['\x7d'])

/-- `JSON.stringify` of the breakdown object. -/
def serializeBreakdownR (r : AnalysisRecord) : List Char :=
  '\x7b' :: (strL "\"opening\":" ++ serializeCat r.opening ++
    strL ",\"objectionHandling\":" ++ serializeCat r.objectionHandling ++
    strL ",\"rapport\":" ++ serializeCat r.rapport ++
    strL ",\"tonality\":" ++ serializeCat r.tonality ++
    strL ",\"timing\":" ++ serializeCat r.timing ++
    strL ",\"closing\":" ++ serializeCat r.closing ++ ['\x7d'])

/-- `JSON.stringify` of a whole AnalysisRecord-shaped object. -/
def serializeAnalysis (r : AnalysisRecord) : List Char :=
  '\x7b' :: (strL "\"overall\":" ++ intToChars r.overall ++
    strL ",\"breakdown\":" ++ serializeBreakdownR r ++
    strL ",\"summary\":" ++ serializeStr r.summary ++
    strL ",\"keyStrength\":" ++ serializeStr r.keyStrength ++
    strL ",\"keyImprovement\":" ++ serializeStr r.keyImprovement ++ ['\x7d'])

/-- The `Json` value a category entry parses to. -/
def catJson (c : CategoryScore) : Json :=
  Json.obj [("score", Json.num c.score), ("feedback", Json.str c.feedback)]

/-- The `Json` value the breakdown parses to. -/
def breakdownJson (r : AnalysisRecord) : Json :=
  Json.obj [("opening", catJson r.opening),
    ("objectionHandling", catJson r.objectionHandling),
    ("rapport", catJson r.rapport),
    ("tonality", catJson r.tonality),
    ("timing", catJson r.timing),
    ("closing", catJson r.closing)]

/-- The `Json` value a serialized AnalysisRecord parses to. -/
def analysisJson (r : AnalysisRecord) : Json :=
  Json.obj [("overall", Json.num r.overall),
    ("breakdown", breakdownJson r),
    ("summary", Json.str r.summary),
    ("keyStrength", Json.str r.keyStrength),
    ("keyImprovement", Json.str r.keyImprovement)]

/-! ## Auxiliary predicates and instances -/

/-- No backtick anywhere in the character sequence (so the fence regex
cannot fire inside it). -/
abbrev noBacktick (s : List Char) : Prop :=
  ∀ c ∈ s, c ≠ '`'

/-- No opening brace in the character sequence. -/
abbrev noLBrace (s : List Char) : Prop :=
  ∀ c ∈ s, c ≠ '\x7b'

/-- No closing brace in the character sequence. -/
abbrev noRBrace (s : List Char) : Prop :=
  ∀ c ∈ s, c ≠ '\x7d'

/-- None of the string fields of the record contains a backtick. -/
abbrev recNoBacktick (r : AnalysisRecord) : Prop :=
  noBacktick r.opening.feedback.data ∧ noBacktick r.objectionHandling.feedback.data ∧
  noBacktick r.rapport.feedback.data ∧ noBacktick r.tonality.feedback.data ∧
  noBacktick r.timing.feedback.data ∧ noBacktick r.closing.feedback.data ∧
  noBacktick r.summary.data ∧ noBacktick r.keyStrength.data ∧
  noBacktick r.keyImprovement.data

instance : IsTotal KDoc (fun a b => a.uploadedAt ≤ b.uploadedAt) :=
  ⟨fun a b => le_total a.uploadedAt b.uploadedAt⟩

instance : IsTrans KDoc (fun a b => a.uploadedAt ≤ b.uploadedAt) :=
  ⟨fun _ _ _ h1 h2 => le_trans h1 h2⟩

instance : IsTotal KDoc (fun a b => b.uploadedAt ≤ a.uploadedAt) :=
  ⟨fun a b => le_total b.uploadedAt a.uploadedAt⟩

instance : IsTrans KDoc (fun a b => b.uploadedAt ≤ a.uploadedAt) :=
  ⟨fun _ _ _ h1 h2 => le_trans h2 h1⟩

instance : IsAntisymm ℤ (fun a b => b ≤ a) :=
  ⟨fun _ _ h1 h2 => le_antisymm h2 h1⟩

/-! # Theorems

## Shared list lemmas -/

/-- `dropWhile` over an append whose right part starts with a
non-matching character strips only within the left part. -/
theorem dropWhile_append_cons {p : Char → Bool} (a : List Char) (c : Char)
    (b : List Char) (hc : p c = false) :
    List.dropWhile p (a ++ c :: b) = List.dropWhile p a ++ c :: b := by
  induction a with
  | nil => simp [List.dropWhile, hc]
  | cons x xs ih =>
    by_cases hx : p x
    · simpa [List.dropWhile, hx] using ih
    · simp [List.dropWhile, hx]

/-- A list whose last element fails `p` loses nothing at its end but
may lose a prefix: `dropWhile` cannot erase it completely. -/
theorem dropWhile_ne_nil_of_mem {p : Char → Bool} {l : List Char} {c : Char}
    (hm : c ∈ l) (hc : p c = false) : List.dropWhile p l ≠ [] := by
  intro h
  rw [List.dropWhile_eq_nil_iff] at h
  exact absurd (h c hm) (by simp [hc])

/-- The head of a `dropWhile` result is an element of the input. -/
theorem dropWhile_head_mem {p : Char → Bool} {l : List Char} {c : Char}
    {rest : List Char} (h : List.dropWhile p l = c :: rest) : c ∈ l := by
  have := List.dropWhile_sublist (p := p) (l := l)
  exact (h ▸ this).subset (by simp)

/-! ## C5 — appending a rep turn -/

/-- C5: for every string that is non-empty after trimming, the
`POST /chat` append makes the rep turn the last element of the
transcript; the empty and whitespace-only strings fail validation
(HTTP 400) and append nothing. -/
theorem c5_chat_append (hist : List Turn) (s : String) :
    (jsTrim s.data ≠ [] →
      appendRep hist s = Except.ok (hist ++ [Turn.mk "user" s]) ∧
      (hist ++ [Turn.mk "user" s]).getLast? = some (Turn.mk "user" s)) ∧
    appendRep hist "" = Except.error "Message is required." ∧
    appendRep hist "   " = Except.error "Message is required." ∧
    chatPost hist "" (Except.ok "reply") = ⟨400, some "Message is required.", none, hist⟩ ∧
    chatPost hist "   " (Except.ok "reply") = ⟨400, some "Message is required.", none, hist⟩ := by
  have h0 : jsTrim ("" : String).data = [] := rfl
  have h3 : jsTrim ("   " : String).data = [] := by decide
  refine ⟨fun h => ⟨?_, ?_⟩, ?_, ?_, ?_, ?_⟩
  · simp [appendRep, h]
  · simp
  · simp [appendRep, h0]
  · simp [appendRep, h3]
  · simp [chatPost, appendRep, h0]
  · simp [chatPost, appendRep, h3]

/-- C5 witness at concrete inputs. -/
theorem c5_chat_append_witness :
    appendRep [] "hello" = Except.ok [Turn.mk "user" "hello"] ∧
    appendRep [] "" = Except.error "Message is required." :=
  ⟨((c5_chat_append [] "hello").1 (by decide)).1, (c5_chat_append [] "").2.1⟩

/-! ## C10 — chat model failure leaves the pushed rep turn in place -/

/-- C10: when the model call of a chat turn fails, the handler answers
500, the rep turn pushed before the call remains (it is the last
element of the conversation history, so it appears in later
scorecard/analysis transcripts), and no homeowner turn is appended. -/
theorem c10_chat_model_failure (hist : List Turn) (msg e : String)
    (hmsg : jsTrim msg.data ≠ []) :
    chatPost hist msg (Except.error e) =
      ⟨500, some e, none, hist ++ [Turn.mk "user" msg]⟩ ∧
    Turn.mk "user" msg ∈ (chatPost hist msg (Except.error e)).history ∧
    (chatPost hist msg (Except.error e)).history.getLast? = some (Turn.mk "user" msg) ∧
    (chatPost hist msg (Except.error e)).history.length = hist.length + 1 := by
  have h : chatPost hist msg (Except.error e) =
      ⟨500, some e, none, hist ++ [Turn.mk "user" msg]⟩ := by
    simp [chatPost, appendRep, hmsg]
  refine ⟨h, ?_, ?_, ?_⟩ <;> simp [h]

/-- C10 witness at concrete inputs. -/
theorem c10_chat_model_failure_witness :
    chatPost [] "hi there" (Except.error "model down") =
      ⟨500, some "model down", none, [Turn.mk "user" "hi there"]⟩ :=
  (c10_chat_model_failure [] "hi there" "model down" (by decide)).1

/-! ## C8 — prompt builder -/

/-- C8: with no documents `buildSystemPrompt` returns the base script
exactly; with documents it returns the base script, the fixed
training-materials header, and one `--- filename ---` block per
document with its content truncated to 3000 characters, blocks joined
by a blank line. -/
theorem c8_prompt_builder :
    buildSystemPrompt [] = BASE_SYSTEM_PROMPT ∧
    ∀ files : List PromptRow, files ≠ [] →
      buildSystemPrompt files =
        BASE_SYSTEM_PROMPT ++ TRAINING_HEADER ++
          String.intercalate "\n\n"
            (files.map fun f =>
              "--- " ++ f.filename ++ " ---\n" ++ String.mk (f.content.data.take 3000)) ∧
      ∀ f ∈ files, (jsSlice 3000 f.content).length ≤ 3000 := by
  refine ⟨rfl, fun files hne => ⟨?_, fun f _ => ?_⟩⟩
  · have hne2 : files.isEmpty = false := by
      cases files with
      | nil => exact absurd rfl hne
      | cons a l => rfl
    have hfun : kbBlock = fun f : PromptRow =>
        "--- " ++ f.filename ++ " ---\n" ++ String.mk (f.content.data.take 3000) :=
      funext fun f => rfl
    simp [buildSystemPrompt, hne2, hfun]
  · show (f.content.data.take 3000).length ≤ 3000
    exact List.length_take_le 3000 f.content.data

/-- C8 witness: the 5000-character example is truncated to 3000. -/
theorem c8_prompt_builder_witness :
    (jsSlice 3000 (String.mk (List.replicate 5000 'x'))).length ≤ 3000 :=
  (c8_prompt_builder.2 [⟨"f.txt", String.mk (List.replicate 5000 'x')⟩] (by simp)).2
    ⟨"f.txt", String.mk (List.replicate 5000 'x')⟩ (by simp)

/-! ## C6 — knowledge-file validation (corrected) -/

/-- C6 counterexample: a whitespace-only filename is empty after
trimming, yet the upload succeeds (status 200, not the claimed 400) —
the handler only rejects fields that are entirely empty strings. -/
theorem c6_counterexample :
    jsTrim (" " : String).data = [] ∧
    (knowledgeFilePost ⟨[], none, 0⟩ " " "x" 1 0).1.status = 200 ∧
    (knowledgeFilePost ⟨[], none, 0⟩ " " "x" 1 0).1.status ≠ 400 := by
  refine ⟨by decide, rfl, by decide⟩

/-- C6 amended: the upload fails with 400 exactly when `filename` or
`content` is the empty string (whitespace-only values are accepted and
stored trimmed); on success the trimmed document is stored and the
knowledge cache is invalidated. -/
theorem c6_amended (st : KBState) (filename content : String)
    (newId : Nat) (now : Int) :
    ((filename = "" ∨ content = "") →
      knowledgeFilePost st filename content newId now =
        (⟨400, some "filename and content required.", none⟩, st)) ∧
    (filename ≠ "" → content ≠ "" →
      knowledgeFilePost st filename content newId now =
        (⟨200, none, some newId⟩,
          ⟨st.storage ++ [⟨newId, jsTrimS filename, jsTrimS content, now⟩],
            none, st.knowledgeCacheTime⟩)) := by
  constructor
  · intro h
    rcases h with h | h <;> simp [knowledgeFilePost, h]
  · intro h1 h2
    simp [knowledgeFilePost, h1, h2]

/-- C6 witness at concrete inputs: both the rejection and the success
path with its cache invalidation. -/
theorem c6_amended_witness :
    knowledgeFilePost ⟨[], some [], 5⟩ "" "c" 1 0 =
      (⟨400, some "filename and content required.", none⟩, ⟨[], some [], 5⟩) ∧
    knowledgeFilePost ⟨[], some [], 5⟩ "f" "c" 1 7 =
      (⟨200, none, some 1⟩, ⟨[⟨1, "f", "c", 7⟩], none, 5⟩) := by
  constructor
  · exact (c6_amended ⟨[], some [], 5⟩ "" "c" 1 0).1 (Or.inl rfl)
  · have h := (c6_amended ⟨[], some [], 5⟩ "f" "c" 1 7).2 (by decide) (by decide)
    rw [h]
    decide

/-! ## C3 — knowledge cache staleness (corrected) -/

/-- C3 counterexample: two `getKnowledgeBase` reads 2 ms apart (59999
and 60001, no intervening mutation), where the first is a cache hit on
a cache populated at time 0 — the second read misses and performs a
storage reload, contradicting the claim that any two reads within 60
seconds of each other involve no second storage read. -/
theorem c3_counterexample :
    (getKnowledgeBase (getKnowledgeBase ⟨[], none, 0⟩ 0).state 59999).storageRead = false ∧
    (getKnowledgeBase
      (getKnowledgeBase (getKnowledgeBase ⟨[], none, 0⟩ 0).state 59999).state
      60001).storageRead = true ∧
    ((60001 : Int) - 59999 < 60000) := by
  refine ⟨by decide, by decide, by decide⟩

/-- C3 amended: a cache snapshot is served only while younger than 60
seconds counted from the moment the cache was populated: after any
read, the cache holds the returned rows, and a second read within
60 s of the cache timestamp returns the identical rows with no storage
read and no state change; a successful add and any delete set the cache
to `null` regardless of age, and a read on an invalidated cache reloads
from storage and stamps the cache with the read time. -/
theorem c3_amended (st : KBState) (now now2 : Int) :
    ((getKnowledgeBase st now).state.knowledgeCache =
      some (getKnowledgeBase st now).rows ∧
     (now2 - (getKnowledgeBase st now).state.knowledgeCacheTime < 60000 →
       getKnowledgeBase (getKnowledgeBase st now).state now2 =
         ⟨(getKnowledgeBase st now).rows, (getKnowledgeBase st now).state, false⟩)) ∧
    (∀ filename content : String, ∀ newId : Nat, ∀ tAdd : Int,
      filename ≠ "" → content ≠ "" →
      (knowledgeFilePost st filename content newId tAdd).2.knowledgeCache = none) ∧
    (∀ id : Nat, (knowledgeDelete st id).knowledgeCache = none) ∧
    (st.knowledgeCache = none →
      getKnowledgeBase st now =
        ⟨sqlSelectForPrompt st.storage,
          ⟨st.storage, some (sqlSelectForPrompt st.storage), now⟩, true⟩) := by
  refine ⟨⟨?_, ?_⟩, ?_, ?_, ?_⟩
  · cases h : st.knowledgeCache with
    | none => simp [getKnowledgeBase, h]
    | some c =>
      by_cases hlt : now - st.knowledgeCacheTime < 60000 <;>
        simp [getKnowledgeBase, h, hlt]
  · intro h2
    cases h : st.knowledgeCache with
    | none =>
      simp only [getKnowledgeBase, h] at h2 ⊢
      simp [h2]
    | some c =>
      by_cases hlt : now - st.knowledgeCacheTime < 60000 <;>
        simp only [getKnowledgeBase, h, hlt, if_true, if_false, reduceIte] at h2 ⊢ <;>
        simp [h2]
  · intro filename content newId tAdd h1 hc
    simp [knowledgeFilePost, h1, hc]
  · intro id
    simp [knowledgeDelete]
  · intro h
    simp [getKnowledgeBase, h]

/-- C3 witness at concrete inputs. -/
theorem c3_amended_witness :
    getKnowledgeBase (getKnowledgeBase ⟨[], none, 0⟩ 0).state 59999 =
      ⟨(getKnowledgeBase ⟨[], none, 0⟩ 0).rows,
        (getKnowledgeBase ⟨[], none, 0⟩ 0).state, false⟩ ∧
    getKnowledgeBase ⟨[⟨1, "f", "c", 0⟩], none, 3⟩ 100 =
      ⟨sqlSelectForPrompt [⟨1, "f", "c", 0⟩],
        ⟨[⟨1, "f", "c", 0⟩], some (sqlSelectForPrompt [⟨1, "f", "c", 0⟩]), 100⟩, true⟩ :=
  ⟨((c3_amended ⟨[], none, 0⟩ 0 59999).1).2 (by decide),
    (c3_amended ⟨[⟨1, "f", "c", 0⟩], none, 3⟩ 100 0).2.2.2 rfl⟩

/-! ## C4 — improvement trend -/

/-- C4: the trend is computed only when the rep has at least 4 sessions
in the window; the newest-first score sequence is split at
`half = floor(n/2)`, the newer half's average minus the older (last)
half's average is rounded; `[90, 85, 60, 55]` gives 30. -/
theorem c4_improvement_trend (analyses : List AnalysisView) :
    (4 ≤ (scoresOf analyses).length →
      improvementOf analyses =
        some (jsRound
          ((((scoresOf analyses).take ((scoresOf analyses).length / 2)).sum : ℚ) /
              (((scoresOf analyses).length / 2 : ℕ) : ℚ) -
            (((scoresOf analyses).drop
                ((scoresOf analyses).length - (scoresOf analyses).length / 2)).sum : ℚ) /
              (((scoresOf analyses).length / 2 : ℕ) : ℚ)))) ∧
    ((scoresOf analyses).length < 4 → improvementOf analyses = none) ∧
    improvementOf
      [⟨some 90, none, none⟩, ⟨some 85, none, none⟩,
        ⟨some 60, none, none⟩, ⟨some 55, none, none⟩] = some 30 := by
  refine ⟨fun h => ?_, fun h => ?_, ?_⟩
  · simp [improvementOf, h]
  · have h4 : ¬ 4 ≤ (scoresOf analyses).length := by omega
    simp [improvementOf, h4]
  · have hs : scoresOf [⟨some 90, none, none⟩, ⟨some 85, none, none⟩,
        ⟨some 60, none, none⟩, ⟨some 55, none, none⟩] = [90, 85, 60, 55] := by decide
    norm_num [improvementOf, hs, jsRound, Int.floor_eq_iff]

/-- C4 witness: below the 4-session threshold the trend is absent. -/
theorem c4_improvement_trend_witness :
    improvementOf [⟨some 90, none, none⟩, ⟨some 85, none, none⟩,
      ⟨some 60, none, none⟩] = none :=
  (c4_improvement_trend _).2.1 (by decide)

/-! ## C7 — category averages (corrected) -/

/-- C7 counterexample: with opening scores 1 and 2 the computed average
is `Math.round(3/2) = 2`, which is not the arithmetic mean `3/2` the
claim states — the code stores the rounded mean. -/
theorem c7_counterexample :
    catAvgOf [⟨none, some ⟨some 1, none, none, none, none, none⟩, none⟩,
        ⟨none, some ⟨some 2, none, none, none, none, none⟩, none⟩] CatKey.opening =
      some 2 ∧
    ¬ (((2 : ℤ) : ℚ) = ((1 : ℚ) + 2) / 2) := by
  constructor
  · norm_num [catAvgOf, catValsOf, catScoreOf, getCat, List.filterMap_cons,
      List.filterMap_nil, jsRound, Int.floor_eq_iff]
  · norm_num

/-- C7 amended: for each of the six categories the aggregation yields
`null` when no session contributes a value, and otherwise the rounded
mean (`Math.round`) of `breakdown[category].score` over exactly the
sessions where the field is present and non-null; a session with no
breakdown contributes nothing and never aborts the aggregation. -/
theorem c7_amended (analyses : List AnalysisView) (k : CatKey) :
    (catValsOf analyses k = [] → catAvgOf analyses k = none) ∧
    (catValsOf analyses k ≠ [] →
      catAvgOf analyses k =
        some (jsRound
          (((catValsOf analyses k).sum : ℚ) / ((catValsOf analyses k).length : ℚ)))) ∧
    (∀ blank : AnalysisView, blank.breakdown = none →
      ∀ pre post : List AnalysisView,
        catValsOf (pre ++ blank :: post) k = catValsOf (pre ++ post) k ∧
        catAvgOf (pre ++ blank :: post) k = catAvgOf (pre ++ post) k) := by
  refine ⟨fun h => ?_, fun h => ?_, fun blank hb pre post => ?_⟩
  · simp [catAvgOf, h]
  · have he : (catValsOf analyses k).isEmpty = false := by
      simpa [List.isEmpty_iff] using h
    simp [catAvgOf, he]
  · have hv : catValsOf (pre ++ blank :: post) k = catValsOf (pre ++ post) k := by
      simp [catValsOf, List.filterMap_append, List.filterMap_cons, catScoreOf, hb]
    exact ⟨hv, by simp [catAvgOf, hv]⟩

/-- C7 witness at concrete inputs. -/
theorem c7_amended_witness :
    catAvgOf [⟨none, some ⟨some 1, none, none, none, none, none⟩, none⟩,
        ⟨none, some ⟨some 2, none, none, none, none, none⟩, none⟩] CatKey.opening =
      some (jsRound ((((1 : ℤ) + 2 : ℤ) : ℚ) / ((2 : ℕ) : ℚ))) := by
  have h := (c7_amended
    [⟨none, some ⟨some 1, none, none, none, none, none⟩, none⟩,
      ⟨none, some ⟨some 2, none, none, none, none, none⟩, none⟩] CatKey.opening).2.1
    (by decide)
  rw [h]
  norm_num [catValsOf, catScoreOf, getCat, List.filterMap_cons, List.filterMap_nil]

/-! ## C9 — the two knowledge-base read orders -/

/-- C9: the prompt read path is ordered by upload time ascending while
the listing path is ordered descending — the two key sequences are
exact reverses — both are permutations of the stored documents, and
every listing preview is at most 120 characters. -/
theorem c9_orderings (storage : List KDoc) :
    List.Sorted (fun a b : KDoc => a.uploadedAt ≤ b.uploadedAt) (promptOrder storage) ∧
    (promptOrder storage).Perm storage ∧
    List.Sorted (fun a b : KFileListRow => b.uploadedAt ≤ a.uploadedAt)
      (listKnowledgeFiles storage) ∧
    (listOrder storage).Perm storage ∧
    (∀ f ∈ listKnowledgeFiles storage, f.preview.length ≤ 120) ∧
    (listKnowledgeFiles storage).map (fun f => f.uploadedAt) =
      ((promptOrder storage).map (fun d => d.uploadedAt)).reverse := by
  have hasc := List.sorted_insertionSort
    (fun a b : KDoc => a.uploadedAt ≤ b.uploadedAt) storage
  have hdesc := List.sorted_insertionSort
    (fun a b : KDoc => b.uploadedAt ≤ a.uploadedAt) storage
  refine ⟨hasc, List.perm_insertionSort _ storage, ?_, List.perm_insertionSort _ storage,
    ?_, ?_⟩
  · exact List.pairwise_map.mpr hdesc
  · intro f hf
    rcases List.mem_map.mp hf with ⟨d, _, rfl⟩
    show (d.content.data.take 120).length ≤ 120
    exact List.length_take_le 120 d.content.data
  · have hkeys : (listKnowledgeFiles storage).map (fun f => f.uploadedAt) =
        (listOrder storage).map (fun d => d.uploadedAt) := by
      simp only [listKnowledgeFiles, List.map_map]
      rfl
    rw [hkeys]
    apply List.eq_of_perm_of_sorted (r := fun a b : ℤ => b ≤ a)
    · have h1 := (List.perm_insertionSort
        (fun a b : KDoc => b.uploadedAt ≤ a.uploadedAt) storage).map
        (fun d : KDoc => d.uploadedAt)
      have h2 := (List.perm_insertionSort
        (fun a b : KDoc => a.uploadedAt ≤ b.uploadedAt) storage).map
        (fun d : KDoc => d.uploadedAt)
      have h3 := List.reverse_perm ((promptOrder storage).map fun d => d.uploadedAt)
      exact h1.trans (h2.symm.trans h3.symm)
    · exact List.pairwise_map.mpr hdesc
    · exact List.pairwise_reverse.mpr (List.pairwise_map.mpr hasc)


/-- C9 witness: the preview bound at a concrete stored document. -/
theorem c9_orderings_witness :
    (KFileListRow.mk 1 "a" (jsSlice 120 "c") 5).preview.length ≤ 120 :=
  (c9_orderings [⟨1, "a", "c", 5⟩, ⟨2, "b", "d", 3⟩]).2.2.2.2.1
    ⟨1, "a", jsSlice 120 "c", 5⟩ (by decide)

/-! ## C2 — malformed model output -/

/-- C2: whenever no extraction stage can coerce the model text to JSON,
the extraction fails carrying the raw text (the design's
`MalformedResponseError`), and the `/analyze` handler surfaces it as an
HTTP 500 whose body is the generic parse message, not the raw text. -/
theorem c2_malformed_response (raw : List Char) (hist : List Turn)
    (hfail : jsonParse (extractCandidate raw) = none) (hh : hist ≠ []) :
    extractAnalysis raw = Except.error raw ∧
    analyzePost hist (String.mk raw) = ⟨500, some PARSE_ERROR_MESSAGE, none⟩ := by
  have he : extractAnalysis raw = Except.error raw := by
    simp [extractAnalysis, hfail]
  have hie : hist.isEmpty = false := by
    cases hist with
    | nil => exact absurd rfl hh
    | cons a l => rfl
  exact ⟨he, by simp [analyzePost, hie, he]⟩

/-- C2 witness: the claim's example input `"garbled non-json text"`. -/
theorem c2_malformed_response_witness :
    extractAnalysis ("garbled non-json text".data) =
      Except.error ("garbled non-json text".data) ∧
    analyzePost [⟨"user", "hi"⟩] "garbled non-json text" =
      ⟨500, some PARSE_ERROR_MESSAGE, none⟩ :=
  c2_malformed_response "garbled non-json text".data [⟨"user", "hi"⟩] rfl (by simp)

/-! ## C1 — extraction round-trip: trim lemmas -/

/-- `dropWhile` is the identity when the head (if any) fails the test. -/
theorem dropWhile_eq_self_of_head {p : Char → Bool} {l : List Char}
    (h : ∀ c, l.head? = some c → p c = false) : List.dropWhile p l = l := by
  cases l with
  | nil => rfl
  | cons a l => simp [List.dropWhile_cons, h a rfl]

/-- `jsTrim` is the identity on a string whose first and last characters
are not whitespace. -/
theorem jsTrim_eq_self {l : List Char}
    (hhead : ∀ c, l.head? = some c → isJsWs c = false)
    (hlast : ∀ c, l.getLast? = some c → isJsWs c = false) :
    jsTrim l = l := by
  unfold jsTrim
  rw [dropWhile_eq_self_of_head hhead]
  rw [dropWhile_eq_self_of_head (fun c hc => hlast c (by rwa [List.head?_reverse] at hc))]
  exact List.reverse_reverse l

/-! ## C1 — fence-regex lemmas -/

/-- The fence pattern cannot match at a position not holding a
backtick. -/
theorem fenceMatchFrom_none {c : Char} {cs : List Char} (h : c ≠ '`') :
    fenceMatchFrom (c :: cs) = none := by
  have hpre : (['`', '`', '`'].isPrefixOf (c :: cs)) = false := by
    simp only [List.isPrefixOf]
    simp [beq_iff_eq]
    intro h'
    exact absurd h'.symm h
  simp [fenceMatchFrom, hpre]

/-- On a backtick-free string the fence regex finds no match. -/
theorem fenceCapture_none {s : List Char} (h : noBacktick s) :
    fenceCapture s = none := by
  induction s with
  | nil => rfl
  | cons c cs ih =>
    have hc : c ≠ '`' := h c (by simp)
    have ih' := ih fun x hx => h x (by simp [hx])
    simp [fenceCapture, fenceMatchFrom_none hc, ih', Option.orElse]

/-- Scanning for the leftmost fence skips over any backtick-free
prefix. -/
theorem fenceCapture_append {p t : List Char} (h : noBacktick p) :
    fenceCapture (p ++ t) = fenceCapture t := by
  induction p with
  | nil => rfl
  | cons c cs ih =>
    have hc : c ≠ '`' := h c (by simp)
    have ih' := ih fun x hx => h x (by simp [hx])
    simp [fenceCapture, fenceMatchFrom_none hc, ih', Option.orElse]

/-- The closing-fence suffix `\n` + three backticks satisfies the
trailing `\s*` + fence check, whatever follows the fence. -/
theorem tailOK_true_closing (u : List Char) :
    tailOK ('\n' :: '`' :: '`' :: '`' :: u) = true := by
  have h1 : isJsWs '\n' = true := by decide
  have h2 : isJsWs '`' = false := by decide
  simp [tailOK, List.dropWhile_cons, h1, h2, List.isPrefixOf]

/-- While a closing brace (not whitespace, not a backtick) still lies
ahead of the closing fence, the trailing check fails. -/
theorem tailOK_false_of_brace {rest t : List Char} (hmem : '\x7d' ∈ rest)
    (hnb : noBacktick rest) : tailOK (rest ++ t) = false := by
  have hws : isJsWs '\x7d' = false := by decide
  have hne : List.dropWhile isJsWs rest ≠ [] := dropWhile_ne_nil_of_mem hmem hws
  obtain ⟨a, l, hal⟩ : ∃ a l, List.dropWhile isJsWs rest = a :: l := by
    cases hcase : List.dropWhile isJsWs rest with
    | nil => exact absurd hcase hne
    | cons a l => exact ⟨a, l, rfl⟩
  have hie : (List.dropWhile isJsWs rest).isEmpty = false := by
    rw [hal]; rfl
  have ha : a ≠ '`' := hnb a (dropWhile_head_mem hal)
  unfold tailOK
  rw [List.dropWhile_append, hie]
  simp only [Bool.false_eq_true, if_false, hal]
  simp only [List.cons_append, List.isPrefixOf]
  simp [beq_iff_eq]
  intro h'
  exact absurd h'.symm ha

/-- Running the lazy capture along a backtick-free block ending in a
closing brace captures exactly the block: every shorter capture is
blocked by the brace, and the capture ends at the closing fence. -/
theorem capLazyAux_run (m : List Char) (hnb : noBacktick (m ++ ['\x7d']))
    (u : List Char) :
    ∀ acc : List Char,
      capLazyAux acc ((m ++ ['\x7d']) ++ ('\n' :: '`' :: '`' :: '`' :: u)) =
        some (acc.reverse ++ (m ++ ['\x7d'])) := by
  induction m with
  | nil =>
    intro acc
    simp only [List.nil_append, List.cons_append]
    rw [capLazyAux]
    simp [tailOK_true_closing]
  | cons c m ih =>
    intro acc
    have hnb' : noBacktick (m ++ ['\x7d']) := by
      intro x hx
      exact hnb x (by simpa using Or.inr (by simpa using hx))
    have hblock : tailOK ((m ++ ['\x7d']) ++ ('\n' :: '`' :: '`' :: '`' :: u)) = false :=
      tailOK_false_of_brace (by simp) hnb'
    have step : capLazyAux acc ((c :: m ++ ['\x7d']) ++ ('\n' :: '`' :: '`' :: '`' :: u)) =
        capLazyAux (c :: acc) ((m ++ ['\x7d']) ++ ('\n' :: '`' :: '`' :: '`' :: u)) := by
      simp only [List.cons_append]
      rw [capLazyAux, hblock]
      simp
    rw [step, ih hnb' (c :: acc)]
    simp

/-- The greedy-leading-whitespace search succeeds on the canonical
fenced body: one whitespace character, then the JSON block, then the
closing fence. -/
theorem afterTag_fence (c0 : Char) (m : List Char) (hc0 : isJsWs c0 = false)
    (hnb : noBacktick ((c0 :: m) ++ ['\x7d'])) (u : List Char) :
    afterTag ('\n' :: (((c0 :: m) ++ ['\x7d']) ++ ('\n' :: '`' :: '`' :: '`' :: u))) =
      some ((c0 :: m) ++ ['\x7d']) := by
  have hws : isJsWs '\n' = true := by decide
  have htake : (List.takeWhile isJsWs
      ('\n' :: (((c0 :: m) ++ ['\x7d']) ++ ('\n' :: '`' :: '`' :: '`' :: u)))).length = 1 := by
    simp [List.takeWhile_cons, hws, hc0]
  unfold afterTag
  rw [htake]
  show (capLazy _).orElse _ = _
  have hdrop : ('\n' :: (((c0 :: m) ++ ['\x7d']) ++ ('\n' :: '`' :: '`' :: '`' :: u))).drop 1 =
      ((c0 :: m) ++ ['\x7d']) ++ ('\n' :: '`' :: '`' :: '`' :: u) := rfl
  rw [hdrop]
  unfold capLazy
  rw [capLazyAux_run (c0 :: m) hnb u []]
  simp [Option.orElse]

/-- The fence regex on a `json`-tagged fenced block around a
backtick-free JSON object captures exactly the object text. -/
theorem fenceCapture_tagged (inner : List Char)
    (hnb : noBacktick ('\x7b' :: (inner ++ ['\x7d']))) (u : List Char) :
    fenceCapture ('`' :: '`' :: '`' :: 'j' :: 's' :: 'o' :: 'n' :: '\n' ::
        (('\x7b' :: (inner ++ ['\x7d'])) ++ ('\n' :: '`' :: '`' :: '`' :: u))) =
      some ('\x7b' :: (inner ++ ['\x7d'])) := by
  have hafter : afterTag ('\n' ::
      (('\x7b' :: (inner ++ ['\x7d'])) ++ ('\n' :: '`' :: '`' :: '`' :: u))) =
      some ('\x7b' :: (inner ++ ['\x7d'])) := by
    have h := afterTag_fence '\x7b' inner (by decide) (by simpa using hnb) u
    simpa using h
  have hm : fenceMatchFrom ('`' :: '`' :: '`' :: 'j' :: 's' :: 'o' :: 'n' :: '\n' ::
      (('\x7b' :: (inner ++ ['\x7d'])) ++ ('\n' :: '`' :: '`' :: '`' :: u))) =
      (afterTag ('\n' :: (('\x7b' :: (inner ++ ['\x7d'])) ++ ('\n' :: '`' :: '`' :: '`' :: u)))).orElse
        (fun _ => afterTag ('j' :: 's' :: 'o' :: 'n' :: '\n' ::
          (('\x7b' :: (inner ++ ['\x7d'])) ++ ('\n' :: '`' :: '`' :: '`' :: u)))) := rfl
  rw [fenceCapture, hm, hafter]
  rfl

/-- The fence regex on an untagged fenced block around a backtick-free
JSON object captures exactly the object text. -/
theorem fenceCapture_untagged (inner : List Char)
    (hnb : noBacktick ('\x7b' :: (inner ++ ['\x7d']))) (u : List Char) :
    fenceCapture ('`' :: '`' :: '`' :: '\n' ::
        (('\x7b' :: (inner ++ ['\x7d'])) ++ ('\n' :: '`' :: '`' :: '`' :: u))) =
      some ('\x7b' :: (inner ++ ['\x7d'])) := by
  have hafter : afterTag ('\n' ::
      (('\x7b' :: (inner ++ ['\x7d'])) ++ ('\n' :: '`' :: '`' :: '`' :: u))) =
      some ('\x7b' :: (inner ++ ['\x7d'])) := by
    have h := afterTag_fence '\x7b' inner (by decide) (by simpa using hnb) u
    simpa using h
  have hm : fenceMatchFrom ('`' :: '`' :: '`' :: '\n' ::
      (('\x7b' :: (inner ++ ['\x7d'])) ++ ('\n' :: '`' :: '`' :: '`' :: u))) =
      afterTag ('\n' :: (('\x7b' :: (inner ++ ['\x7d'])) ++ ('\n' :: '`' :: '`' :: '`' :: u))) := rfl
  rw [fenceCapture, hm, hafter]
  rfl

/-! ## C1 — brace-regex lemmas -/

/-- `dropToLBrace` skips a brace-free prefix and stops at the first
opening brace. -/
theorem dropToLBrace_sandwich {p xs : List Char} (hp : noLBrace p) :
    dropToLBrace (p ++ '\x7b' :: xs) = some ('\x7b' :: xs) := by
  have hall : List.dropWhile (fun c => c != '\x7b') p = [] := by
    rw [List.dropWhile_eq_nil_iff]
    intro x hx
    simp [bne_iff_ne, hp x hx]
  have hd : List.dropWhile (fun c => c != '\x7b') (p ++ '\x7b' :: xs) = '\x7b' :: xs := by
    rw [dropWhile_append_cons _ _ _ (by simp), hall]
    rfl
  unfold dropToLBrace
  rw [hd]

/-- `takeToLastRBrace` on an opening brace followed by a body whose
last closing brace ends the JSON keeps exactly the JSON text. -/
theorem takeToLastRBrace_sandwich {inner q : List Char} (hq : noRBrace q) :
    takeToLastRBrace ('\x7b' :: (inner ++ '\x7d' :: q)) =
      some ('\x7b' :: (inner ++ ['\x7d'])) := by
  have hrev : (inner ++ '\x7d' :: q).reverse = q.reverse ++ '\x7d' :: inner.reverse := by
    simp
  have hall : List.dropWhile (fun c => c != '\x7d') q.reverse = [] := by
    rw [List.dropWhile_eq_nil_iff]
    intro x hx
    simp [bne_iff_ne, hq x (List.mem_reverse.mp hx)]
  have hd : List.dropWhile (fun c => c != '\x7d') (q.reverse ++ '\x7d' :: inner.reverse) =
      '\x7d' :: inner.reverse := by
    rw [dropWhile_append_cons _ _ _ (by simp), hall]
    rfl
  have hstep : takeToLastRBrace ('\x7b' :: (inner ++ '\x7d' :: q)) =
      match List.dropWhile (fun c => c != '\x7d') (inner ++ '\x7d' :: q).reverse with
      | [] => none
      | l => some ('\x7b' :: l.reverse) := rfl
  rw [hstep, hrev, hd]
  simp

/-- The outermost-brace extraction on prose + JSON object + prose
returns exactly the JSON object text. -/
theorem braceExtract_sandwich {p q inner : List Char}
    (hp : noLBrace p) (hq : noRBrace q) :
    braceExtract (p ++ ('\x7b' :: (inner ++ ['\x7d'])) ++ q) =
      some ('\x7b' :: (inner ++ ['\x7d'])) := by
  have hshape : p ++ ('\x7b' :: (inner ++ ['\x7d'])) ++ q =
      p ++ '\x7b' :: (inner ++ '\x7d' :: q) := by
    simp
  rw [hshape]
  unfold braceExtract
  rw [dropToLBrace_sandwich hp]
  simpa using @takeToLastRBrace_sandwich inner q hq

/-! ## C1 — JSON string literal round-trip -/

/-- `skipWs` is the identity when the head is not JSON whitespace. -/
theorem skipWs_cons {c : Char} (h : isJsonWs c = false) (l : List Char) :
    skipWs (c :: l) = c :: l := by
  simp [skipWs, List.dropWhile_cons, h]

/-- Decoding inverts the hexadecimal digit encoding. -/
theorem hexVal_hexChar : ∀ n < 16, hexDigitVal? (hexDigitChar n) = some n := by decide

/-- Decoding inverts the decimal digit encoding. -/
theorem digitVal_digitChar : ∀ n < 10, digitVal (digitChar n) = n := by decide

/-- Decimal digit characters pass the digit test. -/
theorem isDigitC_digitChar : ∀ n < 10, isDigitC (digitChar n) = true := by decide

/-- A nonzero digit does not encode as `'0'`. -/
theorem digitChar_ne_zero : ∀ n < 10, n ≠ 0 → digitChar n ≠ '0' := by decide

/-- One plain (unescaped) character steps the string-body parser. -/
theorem parseStringBody_plain_cons {c : Char} (h1 : c ≠ '"') (h2 : c ≠ '\\')
    (h3 : ¬ c.toNat < 32) (l : List Char) :
    parseStringBody (c :: l) = (parseStringBody l).map fun p => (c :: p.1, p.2) := by
  rw [parseStringBody.eq_def]
  simp [h1, h2, h3]

/-- Parsing a string-literal body inverts `JSON.stringify`'s escaping:
the decoded characters are the original ones and the input continues
after the closing quote. -/
theorem parseStringBody_escape (s rest : List Char) :
    parseStringBody (escapeChars s ++ '"' :: rest) = some (s, rest) := by
  induction s with
  | nil =>
    show parseStringBody ('"' :: rest) = some ([], rest)
    rw [parseStringBody.eq_def]
    simp
  | cons c s ih =>
    show parseStringBody ((escChar c ++ escapeChars s) ++ '"' :: rest) = _
    rw [List.append_assoc]
    unfold escChar
    split_ifs with h1 h2 h3 h4 h5 h6 h7 h8
    · subst h1
      have hstep : parseStringBody ('\\' :: '"' :: (escapeChars s ++ '"' :: rest)) =
          (parseStringBody (escapeChars s ++ '"' :: rest)).map fun p => ('"' :: p.1, p.2) := by
        rw [parseStringBody.eq_def]; simp
      rw [List.cons_append, List.cons_append, List.nil_append, hstep, ih]; rfl
    · subst h2
      have hstep : parseStringBody ('\\' :: '\\' :: (escapeChars s ++ '"' :: rest)) =
          (parseStringBody (escapeChars s ++ '"' :: rest)).map fun p => ('\\' :: p.1, p.2) := by
        rw [parseStringBody.eq_def]; simp
      rw [List.cons_append, List.cons_append, List.nil_append, hstep, ih]; rfl
    · subst h3
      have hstep : parseStringBody ('\\' :: 'b' :: (escapeChars s ++ '"' :: rest)) =
          (parseStringBody (escapeChars s ++ '"' :: rest)).map fun p => ('\x08' :: p.1, p.2) := by
        rw [parseStringBody.eq_def]; simp
      rw [List.cons_append, List.cons_append, List.nil_append, hstep, ih]; rfl
    · subst h4
      have hstep : parseStringBody ('\\' :: 'f' :: (escapeChars s ++ '"' :: rest)) =
          (parseStringBody (escapeChars s ++ '"' :: rest)).map fun p => ('\x0c' :: p.1, p.2) := by
        rw [parseStringBody.eq_def]; simp
      rw [List.cons_append, List.cons_append, List.nil_append, hstep, ih]; rfl
    · subst h5
      have hstep : parseStringBody ('\\' :: 'n' :: (escapeChars s ++ '"' :: rest)) =
          (parseStringBody (escapeChars s ++ '"' :: rest)).map fun p => ('\n' :: p.1, p.2) := by
        rw [parseStringBody.eq_def]; simp
      rw [List.cons_append, List.cons_append, List.nil_append, hstep, ih]; rfl
    · subst h6
      have hstep : parseStringBody ('\\' :: 'r' :: (escapeChars s ++ '"' :: rest)) =
          (parseStringBody (escapeChars s ++ '"' :: rest)).map fun p => ('\r' :: p.1, p.2) := by
        rw [parseStringBody.eq_def]; simp
      rw [List.cons_append, List.cons_append, List.nil_append, hstep, ih]; rfl
    · subst h7
      have hstep : parseStringBody ('\\' :: 't' :: (escapeChars s ++ '"' :: rest)) =
          (parseStringBody (escapeChars s ++ '"' :: rest)).map fun p => ('\t' :: p.1, p.2) := by
        rw [parseStringBody.eq_def]; simp
      rw [List.cons_append, List.cons_append, List.nil_append, hstep, ih]; rfl
    · have hhi : hexDigitVal? (hexDigitChar (c.toNat / 16)) = some (c.toNat / 16) :=
        hexVal_hexChar _ (by omega)
      have hlo : hexDigitVal? (hexDigitChar (c.toNat % 16)) = some (c.toNat % 16) :=
        hexVal_hexChar _ (by omega)
      have h0 : hexDigitVal? '0' = some 0 := by decide
      have hstep : parseStringBody ('\\' :: 'u' :: '0' :: '0' ::
          hexDigitChar (c.toNat / 16) :: hexDigitChar (c.toNat % 16) ::
          (escapeChars s ++ '"' :: rest)) =
          (parseStringBody (escapeChars s ++ '"' :: rest)).map fun p =>
            (Char.ofNat (((0 * 16 + 0) * 16 + c.toNat / 16) * 16 + c.toNat % 16) :: p.1,
              p.2) := by
        rw [parseStringBody.eq_def]
        simp [h0, hhi, hlo]
      have hcode : ((0 * 16 + 0) * 16 + c.toNat / 16) * 16 + c.toNat % 16 = c.toNat := by
        omega
      simp only [List.cons_append, List.nil_append]
      rw [hstep, ih, hcode, Char.ofNat_toNat]
      rfl
    · rw [List.singleton_append, parseStringBody_plain_cons h1 h2 h8, ih]
      rfl

/-! ## C1 — JSON number round-trip -/

/-- A character inequality follows from any refutable consequence of
equality. -/
theorem char_ne_of_toNat {c d : Char} (h : c.toNat ≠ d.toNat) : c ≠ d :=
  fun he => h (by rw [he])

/-- Digits are not JSON whitespace. -/
theorem digit_not_ws {c : Char} (h : isDigitC c = true) : isJsonWs c = false := by
  simp [isDigitC] at h
  simp [isJsonWs]
  omega

/-- A digit character is none of the other value-dispatch heads. -/
theorem digit_head_ne {c : Char} (h : isDigitC c = true) :
    c ≠ '\x7b' ∧ c ≠ '[' ∧ c ≠ '"' ∧ c ≠ 't' ∧ c ≠ 'f' ∧ c ≠ 'n' := by
  exact ⟨fun he => absurd (he ▸ h) (by decide), fun he => absurd (he ▸ h) (by decide),
    fun he => absurd (he ▸ h) (by decide), fun he => absurd (he ▸ h) (by decide),
    fun he => absurd (he ▸ h) (by decide), fun he => absurd (he ▸ h) (by decide)⟩

/-- `takeWhile`/`dropWhile` on an all-matching block followed by a
non-matching character split exactly at that character. -/
theorem takeWhile_all_append_cons {p : Char → Bool} {a : List Char} {c : Char}
    {b : List Char} (ha : ∀ x ∈ a, p x = true) (hc : p c = false) :
    List.takeWhile p (a ++ c :: b) = a ∧ List.dropWhile p (a ++ c :: b) = c :: b := by
  constructor
  · induction a with
    | nil => simp [List.takeWhile_cons, hc]
    | cons x xs ih =>
      have hx : p x = true := ha x (by simp)
      have ih' := ih fun y hy => ha y (by simp [hy])
      simp [List.takeWhile_cons, hx, ih']
  · rw [dropWhile_append_cons _ _ _ hc, List.dropWhile_eq_nil_iff.mpr ha]
    rfl

/-- `takeWhile`/`dropWhile` are total/empty on an all-matching list. -/
theorem takeWhile_all {p : Char → Bool} {a : List Char}
    (ha : ∀ x ∈ a, p x = true) :
    List.takeWhile p a = a ∧ List.dropWhile p a = [] := by
  constructor
  · induction a with
    | nil => rfl
    | cons x xs ih =>
      have hx : p x = true := ha x (by simp)
      have ih' := ih fun y hy => ha y (by simp [hy])
      simp [List.takeWhile_cons, hx, ih']
  · exact List.dropWhile_eq_nil_iff.mpr ha

/-- The fueled digit encoding agrees with `Nat.digits`. -/
theorem natToCharsAux_eq : ∀ fuel n, n ≤ fuel →
    natToCharsAux fuel n = (Nat.digits 10 n).reverse.map digitChar := by
  intro fuel
  induction fuel with
  | zero =>
    intro n hn
    have h0 : n = 0 := by omega
    subst h0
    simp [natToCharsAux]
  | succ fuel ih =>
    intro n hn
    by_cases h0 : n = 0
    · subst h0
      simp [natToCharsAux]
    · rw [show natToCharsAux (fuel + 1) n =
        natToCharsAux fuel (n / 10) ++ [digitChar (n % 10)] by
          rw [natToCharsAux]
          simp [h0]]
      have hdiv : n / 10 ≤ fuel := by omega
      rw [ih (n / 10) hdiv,
        Nat.digits_def' (by norm_num : (1 : ℕ) < 10) (Nat.pos_of_ne_zero h0)]
      simp

/-- The decimal encoding of a natural number is nonempty. -/
theorem natToChars_ne_nil (n : Nat) : natToChars n ≠ [] := by
  unfold natToChars
  split_ifs with h
  · simp
  · rw [natToCharsAux_eq n n le_rfl]
    have hd : Nat.digits 10 n ≠ [] := Nat.digits_ne_nil_iff_ne_zero.mpr h
    simp [hd]

/-- Every character of the decimal encoding is a digit. -/
theorem natToChars_digits {n : Nat} : ∀ d ∈ natToChars n, isDigitC d = true := by
  unfold natToChars
  split_ifs with h
  · intro d hd
    simp at hd
    subst hd
    decide
  · rw [natToCharsAux_eq n n le_rfl]
    intro d hd
    rcases List.mem_map.mp hd with ⟨x, hx, rfl⟩
    exact isDigitC_digitChar x
      (Nat.digits_lt_base (by norm_num) (List.mem_reverse.mp hx))

/-- The decimal encoding never has a superfluous leading zero. -/
theorem natToChars_no_leading_zero (n : Nat) :
    ¬(2 ≤ (natToChars n).length ∧ (natToChars n).head? = some '0') := by
  unfold natToChars
  split_ifs with h
  · simp
  · rw [natToCharsAux_eq n n le_rfl]
    rintro ⟨_, hhead⟩
    have hne : Nat.digits 10 n ≠ [] := Nat.digits_ne_nil_iff_ne_zero.mpr h
    rw [List.head?_map, List.head?_reverse, List.getLast?_eq_getLast _ hne] at hhead
    simp at hhead
    have hlt : (Nat.digits 10 n).getLast hne < 10 :=
      Nat.digits_lt_base (by norm_num) (List.getLast_mem hne)
    exact digitChar_ne_zero _ hlt (Nat.getLast_digit_ne_zero 10 h) hhead

/-- Folding the decimal digits back recovers the number. -/
theorem natToChars_foldl (n : Nat) :
    (natToChars n).foldl (fun a c => 10 * a + digitVal c) 0 = n := by
  unfold natToChars
  split_ifs with h
  · subst h
    decide
  · rw [natToCharsAux_eq n n le_rfl]
    have hfold : ∀ l : List Nat, (∀ x ∈ l, x < 10) →
        l.foldr (fun x y => 10 * y + digitVal (digitChar x)) 0 = Nat.ofDigits 10 l := by
      intro l hl
      induction l with
      | nil => simp [Nat.ofDigits]
      | cons x xs ih =>
        have hx := hl x (by simp)
        have ih' := ih fun y hy => hl y (by simp [hy])
        simp only [List.foldr_cons, ih', digitVal_digitChar x hx, Nat.ofDigits_cons]
        ring
    rw [List.foldl_map, List.foldl_reverse]
    have := hfold (Nat.digits 10 n)
      (fun x hx => Nat.digits_lt_base (by norm_num) hx)
    rw [show (fun (x : Nat) (y : Nat) => 10 * y + digitVal (digitChar x)) =
      (fun x y => (fun (a : Nat) (c : Char) => 10 * a + digitVal c) y (digitChar x))
      from rfl] at this
    rw [this, Nat.ofDigits_digits]

/-- The digit-run parser inverts the decimal encoding when the
following character is not a digit. -/
theorem parseNatPart_round (n : Nat) (rest : List Char)
    (hr : ∀ c, rest.head? = some c → isDigitC c = false) :
    parseNatPart (natToChars n ++ rest) = some (n, rest) := by
  have hsplit : List.takeWhile isDigitC (natToChars n ++ rest) = natToChars n ∧
      List.dropWhile isDigitC (natToChars n ++ rest) = rest := by
    cases rest with
    | nil =>
      rw [List.append_nil]
      exact takeWhile_all natToChars_digits
    | cons c b =>
      exact takeWhile_all_append_cons natToChars_digits (hr c rfl)
  unfold parseNatPart
  rw [hsplit.1, hsplit.2]
  rw [if_neg (natToChars_ne_nil n), if_neg (natToChars_no_leading_zero n),
    natToChars_foldl n]

/-- The number parser inverts `JSON.stringify` of an integer when the
following character is not a digit. -/
theorem parseNumber_round (i : Int) (rest : List Char)
    (hr : ∀ c, rest.head? = some c → isDigitC c = false) :
    parseNumber (intToChars i ++ rest) = some (i, rest) := by
  by_cases hneg : i < 0
  · have hic : intToChars i = '-' :: natToChars i.natAbs := by
      unfold intToChars
      rw [if_pos hneg]
    rw [hic, List.cons_append]
    have hstep : parseNumber ('-' :: (natToChars i.natAbs ++ rest)) =
        (parseNatPart (natToChars i.natAbs ++ rest)).map fun p =>
          (-(p.1 : Int), p.2) := by
      rw [parseNumber.eq_def]
      simp
    rw [hstep, parseNatPart_round _ _ hr]
    show some (-((i.natAbs : Int)), rest) = some (i, rest)
    rw [show -((i.natAbs : Int)) = i by omega]
  · have hic : intToChars i = natToChars i.natAbs := by
      unfold intToChars
      rw [if_neg hneg]
    obtain ⟨d, ds, hds⟩ := List.exists_cons_of_ne_nil (natToChars_ne_nil i.natAbs)
    have hd : isDigitC d = true := natToChars_digits d (by rw [hds]; simp)
    have hdm : d ≠ '-' := fun he => absurd (he ▸ hd) (by decide)
    rw [hic, hds, List.cons_append]
    have hstep : parseNumber (d :: (ds ++ rest)) =
        (parseNatPart (d :: (ds ++ rest))).map fun p => ((p.1 : Int), p.2) := by
      rw [parseNumber.eq_def]
      simp [hdm]
    rw [hstep, show d :: (ds ++ rest) = natToChars i.natAbs ++ rest by
      rw [hds, List.cons_append]]
    rw [parseNatPart_round _ _ hr]
    show some (((i.natAbs : Nat) : Int), rest) = some (i, rest)
    rw [show (((i.natAbs : Nat) : Int)) = i by omega]

/-! ## C1 — JSON value round-trip for the record shape -/

/-- The first character of a stringified integer is a minus sign or a
digit. -/
theorem intToChars_head {i : Int} {c0 : Char} {cs0 : List Char}
    (h : intToChars i = c0 :: cs0) : c0 = '-' ∨ isDigitC c0 = true := by
  by_cases hneg : i < 0
  · left
    have h2 : intToChars i = '-' :: natToChars i.natAbs := by
      unfold intToChars
      rw [if_pos hneg]
    rw [h2] at h
    exact (List.cons.injEq _ _ _ _ ▸ h).1.symm
  · right
    have h2 : intToChars i = natToChars i.natAbs := by
      unfold intToChars
      rw [if_neg hneg]
    rw [h2] at h
    exact natToChars_digits c0 (by rw [h]; simp)

/-- The value parser inverts integer stringification when the next
character is not a digit. -/
theorem parseValue_num (f : Nat) (i : Int) (rest : List Char)
    (hr : ∀ c, rest.head? = some c → isDigitC c = false) :
    parseValue (f + 1) (intToChars i ++ rest) = some (Json.num i, rest) := by
  obtain ⟨c0, cs0, hsplit⟩ : ∃ c0 cs0, intToChars i = c0 :: cs0 := by
    by_cases hneg : i < 0
    · exact ⟨'-', natToChars i.natAbs, by unfold intToChars; rw [if_pos hneg]⟩
    · obtain ⟨d, ds, hds⟩ := List.exists_cons_of_ne_nil (natToChars_ne_nil i.natAbs)
      exact ⟨d, ds, by unfold intToChars; rw [if_neg hneg, hds]⟩
  have hstep : parseValue (f + 1) (c0 :: (cs0 ++ rest)) =
      (parseNumber (c0 :: (cs0 ++ rest))).map fun p => (Json.num p.1, p.2) := by
    rcases intToChars_head hsplit with he | hd
    · subst he
      rw [parseValue.eq_def]
      simp [skipWs_cons (show isJsonWs '-' = false by decide)]
    · obtain ⟨h1, h2, h3, h4, h5, h6⟩ := digit_head_ne hd
      rw [parseValue.eq_def]
      simp [skipWs_cons (digit_not_ws hd), h1, h2, h3, h4, h5, h6, hd]
  rw [hsplit, List.cons_append, hstep, ← List.cons_append, ← hsplit,
    parseNumber_round i rest hr]
  rfl

/-- Plain object keys (no quote, backslash or control characters)
parse back to themselves. -/
theorem parseStringBody_plainKey (k : List Char)
    (hk : ∀ c ∈ k, c ≠ '"' ∧ c ≠ '\\' ∧ ¬ c.toNat < 32) (rest : List Char) :
    parseStringBody (k ++ '"' :: rest) = some (k, rest) := by
  induction k with
  | nil =>
    show parseStringBody ('"' :: rest) = some ([], rest)
    rw [parseStringBody.eq_def]
    simp
  | cons c cs ih =>
    obtain ⟨h1, h2, h3⟩ := hk c (by simp)
    have ih' := ih fun x hx => hk x (by simp [hx])
    rw [List.cons_append, parseStringBody_plain_cons h1 h2 h3, ih']
    rfl

/-- The value parser inverts string stringification. -/
theorem parseValue_str (f : Nat) (s : String) (rest : List Char) :
    parseValue (f + 1) (serializeStr s ++ rest) = some (Json.str s, rest) := by
  have hshape : serializeStr s ++ rest = '"' :: (escapeChars s.data ++ '"' :: rest) := by
    simp [serializeStr]
  rw [hshape, parseValue.eq_def]
  simp [skipWs_cons (show isJsonWs '"' = false by decide), parseStringBody_escape]

/-- One final `"key": value` member before the closing brace. -/
theorem parseMembers_last (f : Nat) (k : List Char)
    (hk : ∀ c ∈ k, c ≠ '"' ∧ c ≠ '\\' ∧ ¬ c.toNat < 32)
    (vs : List Char) (v : Json) (rest : List Char)
    (hv : parseValue f (vs ++ '\x7d' :: rest) = some (v, '\x7d' :: rest)) :
    parseMembers (f + 1) ('"' :: (k ++ '"' :: ':' :: (vs ++ '\x7d' :: rest))) =
      some ([(String.mk k, v)], rest) := by
  have hkey := parseStringBody_plainKey k hk (':' :: (vs ++ '\x7d' :: rest))
  rw [parseMembers.eq_def]
  simp [hkey, skipWs_cons (show isJsonWs ':' = false by decide), hv,
    skipWs_cons (show isJsonWs '\x7d' = false by decide)]

/-- One `"key": value,` member followed by further members. -/
theorem parseMembers_more (f : Nat) (k : List Char)
    (hk : ∀ c ∈ k, c ≠ '"' ∧ c ≠ '\\' ∧ ¬ c.toNat < 32)
    (vs : List Char) (v : Json) (tail : List Char) (ms : List (String × Json))
    (rest2 : List Char)
    (hv : parseValue f (vs ++ ',' :: tail) = some (v, ',' :: tail))
    (htail : skipWs tail = tail)
    (hms : parseMembers f tail = some (ms, rest2)) :
    parseMembers (f + 1) ('"' :: (k ++ '"' :: ':' :: (vs ++ ',' :: tail))) =
      some ((String.mk k, v) :: ms, rest2) := by
  have hkey := parseStringBody_plainKey k hk (':' :: (vs ++ ',' :: tail))
  rw [parseMembers.eq_def]
  simp [hkey, skipWs_cons (show isJsonWs ':' = false by decide), hv,
    skipWs_cons (show isJsonWs ',' = false by decide), htail, hms]

/-- The value parser inverts stringification of one category entry. -/
theorem parseValue_cat (f : Nat) (c : CategoryScore) (rest : List Char) :
    parseValue (f + 4) (serializeCat c ++ rest) = some (catJson c, rest) := by
  have hshape : serializeCat c ++ rest =
      '\x7b' :: ('"' :: (['s', 'c', 'o', 'r', 'e'] ++ '"' :: ':' ::
        (intToChars c.score ++ ',' ::
          ('"' :: (['f', 'e', 'e', 'd', 'b', 'a', 'c', 'k'] ++ '"' :: ':' ::
            (serializeStr c.feedback ++ '\x7d' :: rest)))))) := by
    simp [serializeCat, strL]
  rw [hshape]
  have hms := parseMembers_last (f + 1) ['f', 'e', 'e', 'd', 'b', 'a', 'c', 'k'] (by decide)
    (serializeStr c.feedback) (Json.str c.feedback) rest (parseValue_str f _ _)
  have hmem := parseMembers_more (f + 2) ['s', 'c', 'o', 'r', 'e'] (by decide)
    (intToChars c.score) (Json.num c.score)
    ('"' :: (['f', 'e', 'e', 'd', 'b', 'a', 'c', 'k'] ++ '"' :: ':' ::
      (serializeStr c.feedback ++ '\x7d' :: rest)))
    [(String.mk ['f', 'e', 'e', 'd', 'b', 'a', 'c', 'k'], Json.str c.feedback)] rest
    (parseValue_num (f + 1) _ _ (by intro ch hch; simp at hch; subst hch; decide))
    (skipWs_cons (by decide) _) hms
  rw [parseValue.eq_def]
  simp [skipWs_cons (show isJsonWs '\x7b' = false by decide),
    skipWs_cons (show isJsonWs '"' = false by decide), catJson]
  simp only [List.cons_append, List.nil_append] at hmem
  exact hmem

/-- The value parser inverts stringification of the breakdown object. -/
theorem parseValue_breakdown (f : Nat) (r : AnalysisRecord) (rest : List Char) :
    parseValue (f + 11) (serializeBreakdownR r ++ rest) =
      some (breakdownJson r, rest) := by
  have hshape : serializeBreakdownR r ++ rest =
      '\x7b' :: ('"' :: (['o', 'p', 'e', 'n', 'i', 'n', 'g'] ++ '"' :: ':' :: (serializeCat r.opening ++ ',' :: ('"' :: (['o', 'b', 'j', 'e', 'c', 't', 'i', 'o', 'n', 'H', 'a', 'n', 'd', 'l', 'i', 'n', 'g'] ++ '"' :: ':' :: (serializeCat r.objectionHandling ++ ',' :: ('"' :: (['r', 'a', 'p', 'p', 'o', 'r', 't'] ++ '"' :: ':' :: (serializeCat r.rapport ++ ',' :: ('"' :: (['t', 'o', 'n', 'a', 'l', 'i', 't', 'y'] ++ '"' :: ':' :: (serializeCat r.tonality ++ ',' :: ('"' :: (['t', 'i', 'm', 'i', 'n', 'g'] ++ '"' :: ':' :: (serializeCat r.timing ++ ',' :: ('"' :: (['c', 'l', 'o', 's', 'i', 'n', 'g'] ++ '"' :: ':' :: (serializeCat r.closing ++ '\x7d' :: rest)))))))))))))))))) := by
    simp [serializeBreakdownR, strL]
  rw [hshape]
  have hm6 := parseMembers_last (f + 4) ['c', 'l', 'o', 's', 'i', 'n', 'g'] (by decide)
    (serializeCat r.closing) (catJson r.closing) rest (parseValue_cat f _ _)
  have hm5 := parseMembers_more (f + 5) ['t', 'i', 'm', 'i', 'n', 'g'] (by decide)
    (serializeCat r.timing) (catJson r.timing) _ _ rest
    (parseValue_cat (f + 1) _ _) (skipWs_cons (by decide) _) hm6
  have hm4 := parseMembers_more (f + 6) ['t', 'o', 'n', 'a', 'l', 'i', 't', 'y'] (by decide)
    (serializeCat r.tonality) (catJson r.tonality) _ _ rest
    (parseValue_cat (f + 2) _ _) (skipWs_cons (by decide) _) hm5
  have hm3 := parseMembers_more (f + 7) ['r', 'a', 'p', 'p', 'o', 'r', 't'] (by decide)
    (serializeCat r.rapport) (catJson r.rapport) _ _ rest
    (parseValue_cat (f + 3) _ _) (skipWs_cons (by decide) _) hm4
  have hm2 := parseMembers_more (f + 8) ['o', 'b', 'j', 'e', 'c', 't', 'i', 'o', 'n', 'H', 'a', 'n', 'd', 'l', 'i', 'n', 'g'] (by decide)
    (serializeCat r.objectionHandling) (catJson r.objectionHandling) _ _ rest
    (parseValue_cat (f + 4) _ _) (skipWs_cons (by decide) _) hm3
  have hm1 := parseMembers_more (f + 9) ['o', 'p', 'e', 'n', 'i', 'n', 'g'] (by decide)
    (serializeCat r.opening) (catJson r.opening) _ _ rest
    (parseValue_cat (f + 5) _ _) (skipWs_cons (by decide) _) hm2
  rw [parseValue.eq_def]
  simp [skipWs_cons (show isJsonWs '\x7b' = false by decide),
    skipWs_cons (show isJsonWs '"' = false by decide), breakdownJson]
  simp only [List.cons_append, List.nil_append] at hm1
  exact hm1

/-- The value parser inverts stringification of a whole
AnalysisRecord-shaped object. -/
theorem parseValue_analysis (f : Nat) (r : AnalysisRecord) (rest : List Char) :
    parseValue (f + 14) (serializeAnalysis r ++ rest) =
      some (analysisJson r, rest) := by
  have hshape : serializeAnalysis r ++ rest =
      '\x7b' :: ('"' :: (['o', 'v', 'e', 'r', 'a', 'l', 'l'] ++ '"' :: ':' :: (intToChars r.overall ++ ',' :: ('"' :: (['b', 'r', 'e', 'a', 'k', 'd', 'o', 'w', 'n'] ++ '"' :: ':' :: (serializeBreakdownR r ++ ',' :: ('"' :: (['s', 'u', 'm', 'm', 'a', 'r', 'y'] ++ '"' :: ':' :: (serializeStr r.summary ++ ',' :: ('"' :: (['k', 'e', 'y', 'S', 't', 'r', 'e', 'n', 'g', 't', 'h'] ++ '"' :: ':' :: (serializeStr r.keyStrength ++ ',' :: ('"' :: (['k', 'e', 'y', 'I', 'm', 'p', 'r', 'o', 'v', 'e', 'm', 'e', 'n', 't'] ++ '"' :: ':' :: (serializeStr r.keyImprovement ++ '\x7d' :: rest))))))))))))))) := by
    simp [serializeAnalysis, strL]
  rw [hshape]
  have hm5 := parseMembers_last (f + 8) ['k', 'e', 'y', 'I', 'm', 'p', 'r', 'o', 'v', 'e', 'm', 'e', 'n', 't'] (by decide)
    (serializeStr r.keyImprovement) (Json.str r.keyImprovement) rest
    (parseValue_str (f + 7) _ _)
  have hm4 := parseMembers_more (f + 9) ['k', 'e', 'y', 'S', 't', 'r', 'e', 'n', 'g', 't', 'h'] (by decide)
    (serializeStr r.keyStrength) (Json.str r.keyStrength) _ _ rest
    (parseValue_str (f + 8) _ _) (skipWs_cons (by decide) _) hm5
  have hm3 := parseMembers_more (f + 10) ['s', 'u', 'm', 'm', 'a', 'r', 'y'] (by decide)
    (serializeStr r.summary) (Json.str r.summary) _ _ rest
    (parseValue_str (f + 9) _ _) (skipWs_cons (by decide) _) hm4
  have hm2 := parseMembers_more (f + 11) ['b', 'r', 'e', 'a', 'k', 'd', 'o', 'w', 'n'] (by decide)
    (serializeBreakdownR r) (breakdownJson r) _ _ rest
    (parseValue_breakdown f r _) (skipWs_cons (by decide) _) hm3
  have hm1 := parseMembers_more (f + 12) ['o', 'v', 'e', 'r', 'a', 'l', 'l'] (by decide)
    (intToChars r.overall) (Json.num r.overall) _ _ rest
    (parseValue_num (f + 11) _ _ (by intro ch hch; simp at hch; subst hch; decide))
    (skipWs_cons (by decide) _) hm2
  rw [parseValue.eq_def]
  simp [skipWs_cons (show isJsonWs '\x7b' = false by decide),
    skipWs_cons (show isJsonWs '"' = false by decide), analysisJson]
  simp only [List.cons_append, List.nil_append] at hm1
  exact hm1

/-- `JSON.parse` inverts `JSON.stringify` on AnalysisRecord-shaped
objects. -/
theorem jsonParse_serializeAnalysis (r : AnalysisRecord) :
    jsonParse (serializeAnalysis r) = some (analysisJson r) := by
  have hp : parseValue ((serializeAnalysis r).length + 64) (serializeAnalysis r) =
      some (analysisJson r, []) := by
    have h := parseValue_analysis ((serializeAnalysis r).length + 50) r []
    rw [List.append_nil] at h
    rw [show (serializeAnalysis r).length + 64 =
      (serializeAnalysis r).length + 50 + 14 from by omega]
    exact h
  unfold jsonParse
  rw [hp]
  rfl

/-! ## C1 — the serialized record is backtick-free when its strings are -/

/-- `noBacktick` is closed under append. -/
theorem noBacktick_append {a b : List Char} (ha : noBacktick a) (hb : noBacktick b) :
    noBacktick (a ++ b) := fun c hc => (List.mem_append.mp hc).elim (ha c) (hb c)

/-- `noBacktick` is closed under cons of a non-backtick head. -/
theorem noBacktick_cons {c : Char} {l : List Char} (hc : c ≠ '`')
    (hl : noBacktick l) : noBacktick (c :: l) := by
  intro x hx
  rcases List.mem_cons.mp hx with rfl | hx
  · exact hc
  · exact hl x hx

/-- Hexadecimal digit characters are not backticks. -/
theorem hexDigitChar_ne_backtick : ∀ n < 16, hexDigitChar n ≠ '`' := by decide

/-- Escaping a non-backtick character produces no backtick. -/
theorem noBacktick_escChar {c : Char} (h : c ≠ '`') : noBacktick (escChar c) := by
  unfold escChar
  split_ifs with h1 h2 h3 h4 h5 h6 h7 h8
  · intro x hx; simp at hx; rcases hx with rfl | rfl <;> decide
  · intro x hx; simp at hx; rcases hx with rfl | rfl <;> decide
  · intro x hx; simp at hx; rcases hx with rfl | rfl <;> decide
  · intro x hx; simp at hx; rcases hx with rfl | rfl <;> decide
  · intro x hx; simp at hx; rcases hx with rfl | rfl <;> decide
  · intro x hx; simp at hx; rcases hx with rfl | rfl <;> decide
  · intro x hx; simp at hx; rcases hx with rfl | rfl <;> decide
  · refine noBacktick_cons (by decide) (noBacktick_cons (by decide)
      (noBacktick_cons (by decide) (noBacktick_cons (by decide)
        (noBacktick_cons (hexDigitChar_ne_backtick (c.toNat / 16) (by omega))
          (noBacktick_cons (hexDigitChar_ne_backtick (c.toNat % 16) (by omega)) ?_)))))
    intro x hx
    simp at hx
  · intro x hx; simp at hx; subst hx; exact h

/-- Escaping a backtick-free string produces no backtick. -/
theorem noBacktick_escape {s : List Char} (h : noBacktick s) :
    noBacktick (escapeChars s) := by
  induction s with
  | nil => intro x hx; simp [escapeChars] at hx
  | cons c cs ih =>
    show noBacktick (escChar c ++ escapeChars cs)
    exact noBacktick_append (noBacktick_escChar (h c (by simp)))
      (ih fun x hx => h x (by simp [hx]))

/-- A backtick-free string serializes without backticks. -/
theorem noBacktick_serializeStr {s : String} (h : noBacktick s.data) :
    noBacktick (serializeStr s) := by
  show noBacktick ('"' :: (escapeChars s.data ++ ['"']))
  exact noBacktick_cons (by decide)
    (noBacktick_append (noBacktick_escape h) (by intro x hx; simp at hx; subst hx; decide))

/-- Decimal encodings contain no backtick. -/
theorem noBacktick_natToChars (n : Nat) : noBacktick (natToChars n) :=
  fun d hd he => absurd (he ▸ natToChars_digits d hd) (by decide)

/-- Integer stringification contains no backtick. -/
theorem noBacktick_intToChars (i : Int) : noBacktick (intToChars i) := by
  unfold intToChars
  split_ifs with h
  · exact noBacktick_cons (by decide) (noBacktick_natToChars _)
  · exact noBacktick_natToChars _

/-- A category entry with backtick-free feedback serializes without
backticks. -/
theorem noBacktick_serializeCat {c : CategoryScore} (h : noBacktick c.feedback.data) :
    noBacktick (serializeCat c) := by
  unfold serializeCat
  refine noBacktick_cons (by decide) ?_
  refine noBacktick_append ?_ (show noBacktick ['\x7d'] by decide)
  refine noBacktick_append ?_ (noBacktick_serializeStr h)
  refine noBacktick_append ?_ (show noBacktick (strL ",\"feedback\":") by decide)
  exact noBacktick_append (show noBacktick (strL "\"score\":") by decide)
    (noBacktick_intToChars c.score)

/-- The breakdown serialization is backtick-free when the category
feedbacks are. -/
theorem noBacktick_serializeBreakdownR {r : AnalysisRecord}
    (hr : recNoBacktick r) : noBacktick (serializeBreakdownR r) := by
  obtain ⟨h1, h2, h3, h4, h5, h6, _, _, _⟩ := hr
  unfold serializeBreakdownR
  refine noBacktick_cons (by decide) ?_
  refine noBacktick_append ?_ (show noBacktick ['\x7d'] by decide)
  refine noBacktick_append ?_ (noBacktick_serializeCat h6)
  refine noBacktick_append ?_ (show noBacktick (strL ",\"closing\":") by decide)
  refine noBacktick_append ?_ (noBacktick_serializeCat h5)
  refine noBacktick_append ?_ (show noBacktick (strL ",\"timing\":") by decide)
  refine noBacktick_append ?_ (noBacktick_serializeCat h4)
  refine noBacktick_append ?_ (show noBacktick (strL ",\"tonality\":") by decide)
  refine noBacktick_append ?_ (noBacktick_serializeCat h3)
  refine noBacktick_append ?_ (show noBacktick (strL ",\"rapport\":") by decide)
  refine noBacktick_append ?_ (noBacktick_serializeCat h2)
  refine noBacktick_append ?_ (show noBacktick (strL ",\"objectionHandling\":") by decide)
  exact noBacktick_append (show noBacktick (strL "\"opening\":") by decide)
    (noBacktick_serializeCat h1)

/-- The whole record serialization is backtick-free when its string
fields are. -/
theorem noBacktick_serializeAnalysis {r : AnalysisRecord}
    (hr : recNoBacktick r) : noBacktick (serializeAnalysis r) := by
  have h7 := hr.2.2.2.2.2.2.1
  have h8 := hr.2.2.2.2.2.2.2.1
  have h9 := hr.2.2.2.2.2.2.2.2
  unfold serializeAnalysis
  refine noBacktick_cons (by decide) ?_
  refine noBacktick_append ?_ (show noBacktick ['\x7d'] by decide)
  refine noBacktick_append ?_ (noBacktick_serializeStr h9)
  refine noBacktick_append ?_ (show noBacktick (strL ",\"keyImprovement\":") by decide)
  refine noBacktick_append ?_ (noBacktick_serializeStr h8)
  refine noBacktick_append ?_ (show noBacktick (strL ",\"keyStrength\":") by decide)
  refine noBacktick_append ?_ (noBacktick_serializeStr h7)
  refine noBacktick_append ?_ (show noBacktick (strL ",\"summary\":") by decide)
  refine noBacktick_append ?_ (noBacktick_serializeBreakdownR hr)
  refine noBacktick_append ?_ (show noBacktick (strL ",\"breakdown\":") by decide)
  exact noBacktick_append (show noBacktick (strL "\"overall\":") by decide)
    (noBacktick_intToChars r.overall)

/-! ## C1 — assembling the extraction round-trip -/

/-- Trimming prose + JSON + prose trims only inside the prose. -/
theorem jsTrim_sandwich_mid {p q mid : List Char} {c d : Char}
    (hc : isJsWs c = false) (hd : isJsWs d = false) :
    jsTrim (p ++ (c :: (mid ++ [d])) ++ q) =
      p.dropWhile isJsWs ++ (c :: (mid ++ [d])) ++ (q.reverse.dropWhile isJsWs).reverse := by
  unfold jsTrim
  have hin : p ++ (c :: (mid ++ [d])) ++ q = p ++ c :: (mid ++ d :: q) := by simp
  rw [hin, dropWhile_append_cons _ _ _ hc]
  have h2 : List.dropWhile isJsWs p ++ c :: (mid ++ d :: q) =
      (List.dropWhile isJsWs p ++ c :: mid) ++ d :: q := by simp
  rw [h2, List.reverse_append]
  have h3 : (d :: q).reverse = q.reverse ++ d :: [] := by simp
  rw [h3, List.append_assoc, List.singleton_append, dropWhile_append_cons _ _ _ hd,
    List.reverse_append]
  simp

/-- Trimming is the identity on a string with non-whitespace ends. -/
theorem jsTrim_cons_snoc (c d : Char) (mid : List Char)
    (hc : isJsWs c = false) (hd : isJsWs d = false) :
    jsTrim (c :: (mid ++ [d])) = c :: (mid ++ [d]) := by
  have h := @jsTrim_sandwich_mid [] [] mid c d hc hd
  simpa using h

/-- C1 (amended): for every AnalysisRecord-shaped object whose string
fields contain no backtick, the extraction step of `POST /analyze`
recovers the object from all three tolerated raw shapes — the plain
`JSON.stringify` text (round-trip), that text wrapped in a code fence
with or without the `json` tag, and that text surrounded by prose that
contains no backtick, no opening brace before the JSON and no closing
brace after it. -/
theorem c1_extract_roundtrip (r : AnalysisRecord) (hr : recNoBacktick r)
    (p q : List Char) (hpB : noBacktick p) (hqB : noBacktick q)
    (hpL : noLBrace p) (hqR : noRBrace q) :
    extractAnalysis (serializeAnalysis r) = Except.ok (analysisJson r) ∧
    extractAnalysis ("```json\n".data ++ serializeAnalysis r ++ "\n```".data) =
      Except.ok (analysisJson r) ∧
    extractAnalysis ("```\n".data ++ serializeAnalysis r ++ "\n```".data) =
      Except.ok (analysisJson r) ∧
    extractAnalysis (p ++ serializeAnalysis r ++ q) = Except.ok (analysisJson r) := by
  obtain ⟨inner, hS⟩ : ∃ inner, serializeAnalysis r = '\x7b' :: (inner ++ ['\x7d']) :=
    ⟨_, rfl⟩
  have hnbS : noBacktick (serializeAnalysis r) := noBacktick_serializeAnalysis hr
  have hnbS' : noBacktick ('\x7b' :: (inner ++ ['\x7d'])) := hS ▸ hnbS
  have hparse : jsonParse (serializeAnalysis r) = some (analysisJson r) :=
    jsonParse_serializeAnalysis r
  have hnilL : noLBrace ([] : List Char) := fun x hx => absurd hx (by simp)
  have hnilR : noRBrace ([] : List Char) := fun x hx => absurd hx (by simp)
  have hbrace : braceExtract (serializeAnalysis r) = some (serializeAnalysis r) := by
    have hb := @braceExtract_sandwich [] [] inner hnilL hnilR
    simp only [List.nil_append, List.append_nil] at hb
    rw [hS]
    exact hb
  refine ⟨?_, ?_, ?_, ?_⟩
  · -- plain JSON text
    have htrim : jsTrim (serializeAnalysis r) = serializeAnalysis r := by
      rw [hS]
      exact jsTrim_cons_snoc _ _ _ (by decide) (by decide)
    simp only [extractAnalysis, extractCandidate]
    rw [htrim, fenceCapture_none hnbS]
    simp only [Option.getD_none]
    rw [hbrace]
    simp only [Option.getD_some]
    rw [hparse]
  · -- fenced with json tag
    have htrim : jsTrim ("```json\n".data ++ serializeAnalysis r ++ "\n```".data) =
        "```json\n".data ++ serializeAnalysis r ++ "\n```".data := by
      have hform : "```json\n".data ++ serializeAnalysis r ++ "\n```".data =
          '`' :: (('`' :: '`' :: 'j' :: 's' :: 'o' :: 'n' :: '\n' ::
            (serializeAnalysis r ++ ['\n', '`', '`'])) ++ ['`']) := by
        simp
      rw [hform]
      exact jsTrim_cons_snoc _ _ _ (by decide) (by decide)
    have hfence : fenceCapture ("```json\n".data ++ serializeAnalysis r ++ "\n```".data) =
        some (serializeAnalysis r) := by
      have hform : "```json\n".data ++ serializeAnalysis r ++ "\n```".data =
          '`' :: '`' :: '`' :: 'j' :: 's' :: 'o' :: 'n' :: '\n' ::
            (('\x7b' :: (inner ++ ['\x7d'])) ++ ('\n' :: '`' :: '`' :: '`' :: [])) := by
        rw [hS]
        simp
      rw [hform, fenceCapture_tagged inner hnbS' [], ← hS]
    simp only [extractAnalysis, extractCandidate]
    rw [htrim, hfence]
    simp only [Option.getD_some]
    rw [hbrace]
    simp only [Option.getD_some]
    rw [hparse]
  · -- fenced without tag
    have htrim : jsTrim ("```\n".data ++ serializeAnalysis r ++ "\n```".data) =
        "```\n".data ++ serializeAnalysis r ++ "\n```".data := by
      have hform : "```\n".data ++ serializeAnalysis r ++ "\n```".data =
          '`' :: (('`' :: '`' :: '\n' ::
            (serializeAnalysis r ++ ['\n', '`', '`'])) ++ ['`']) := by
        simp
      rw [hform]
      exact jsTrim_cons_snoc _ _ _ (by decide) (by decide)
    have hfence : fenceCapture ("```\n".data ++ serializeAnalysis r ++ "\n```".data) =
        some (serializeAnalysis r) := by
      have hform : "```\n".data ++ serializeAnalysis r ++ "\n```".data =
          '`' :: '`' :: '`' :: '\n' ::
            (('\x7b' :: (inner ++ ['\x7d'])) ++ ('\n' :: '`' :: '`' :: '`' :: [])) := by
        rw [hS]
        simp
      rw [hform, fenceCapture_untagged inner hnbS' [], ← hS]
    simp only [extractAnalysis, extractCandidate]
    rw [htrim, hfence]
    simp only [Option.getD_some]
    rw [hbrace]
    simp only [Option.getD_some]
    rw [hparse]
  · -- prose before and after
    have hp' : ∀ x ∈ p.dropWhile isJsWs, x ∈ p :=
      fun x hx => (List.dropWhile_sublist _).subset hx
    have hq' : ∀ x ∈ (q.reverse.dropWhile isJsWs).reverse, x ∈ q := by
      intro x hx
      exact List.mem_reverse.mp
        ((List.dropWhile_sublist _).subset (List.mem_reverse.mp hx))
    have htrim : jsTrim (p ++ serializeAnalysis r ++ q) =
        p.dropWhile isJsWs ++ serializeAnalysis r ++
          (q.reverse.dropWhile isJsWs).reverse := by
      rw [hS]
      exact jsTrim_sandwich_mid (by decide) (by decide)
    have hnbT : noBacktick (p.dropWhile isJsWs ++ serializeAnalysis r ++
        (q.reverse.dropWhile isJsWs).reverse) := by
      refine noBacktick_append (noBacktick_append ?_ hnbS) ?_
      · exact fun x hx => hpB x (hp' x hx)
      · exact fun x hx => hqB x (hq' x hx)
    have hbrace4 : braceExtract (p.dropWhile isJsWs ++ serializeAnalysis r ++
        (q.reverse.dropWhile isJsWs).reverse) = some (serializeAnalysis r) := by
      rw [hS]
      exact braceExtract_sandwich (fun x hx => hpL x (hp' x hx))
        (fun x hx => hqR x (hq' x hx))
    simp only [extractAnalysis, extractCandidate]
    rw [htrim, fenceCapture_none hnbT]
    simp only [Option.getD_none]
    rw [hbrace4]
    simp only [Option.getD_some]
    rw [hparse]

set_option maxRecDepth 16384 in
/-- C1 counterexample: the round-trip fails as universally stated — an
AnalysisRecord-shaped object whose `summary` contains a fenced snippet
(two triple-backtick runs) serializes to plain JSON text on which the
fence regex fires inside the string literal, so extraction returns
`MalformedResponseError` instead of the original object. -/
theorem c1_counterexample :
    extractAnalysis (serializeAnalysis
      ⟨80, ⟨70, "a"⟩, ⟨65, "b"⟩, ⟨75, "c"⟩, ⟨60, "d"⟩, ⟨55, "e"⟩, ⟨50, "f"⟩,
        "```A```", "s", "k"⟩) =
      Except.error (serializeAnalysis
        ⟨80, ⟨70, "a"⟩, ⟨65, "b"⟩, ⟨75, "c"⟩, ⟨60, "d"⟩, ⟨55, "e"⟩, ⟨50, "f"⟩,
          "```A```", "s", "k"⟩) ∧
    extractAnalysis (serializeAnalysis
      ⟨80, ⟨70, "a"⟩, ⟨65, "b"⟩, ⟨75, "c"⟩, ⟨60, "d"⟩, ⟨55, "e"⟩, ⟨50, "f"⟩,
        "```A```", "s", "k"⟩) ≠
      Except.ok (analysisJson
        ⟨80, ⟨70, "a"⟩, ⟨65, "b"⟩, ⟨75, "c"⟩, ⟨60, "d"⟩, ⟨55, "e"⟩, ⟨50, "f"⟩,
          "```A```", "s", "k"⟩) := by
  have h : extractAnalysis (serializeAnalysis
      ⟨80, ⟨70, "a"⟩, ⟨65, "b"⟩, ⟨75, "c"⟩, ⟨60, "d"⟩, ⟨55, "e"⟩, ⟨50, "f"⟩,
        "```A```", "s", "k"⟩) =
      Except.error (serializeAnalysis
        ⟨80, ⟨70, "a"⟩, ⟨65, "b"⟩, ⟨75, "c"⟩, ⟨60, "d"⟩, ⟨55, "e"⟩, ⟨50, "f"⟩,
          "```A```", "s", "k"⟩) := rfl
  exact ⟨h, by simp [h]⟩

/-- C1 witness: a concrete record with plain text fields, prose around
its serialization taken from the specification's example. -/
theorem c1_extract_roundtrip_witness :
    extractAnalysis ("Here you go:\n".data ++ serializeAnalysis
      ⟨80, ⟨70, "ok"⟩, ⟨65, "fine"⟩, ⟨75, "good"⟩, ⟨60, "flat"⟩, ⟨55, "slow"⟩,
        ⟨50, "weak"⟩, "solid session", "opening", "closing"⟩ ++ "\nThanks!".data) =
      Except.ok (analysisJson
        ⟨80, ⟨70, "ok"⟩, ⟨65, "fine"⟩, ⟨75, "good"⟩, ⟨60, "flat"⟩, ⟨55, "slow"⟩,
          ⟨50, "weak"⟩, "solid session", "opening", "closing"⟩) :=
  (c1_extract_roundtrip
    ⟨80, ⟨70, "ok"⟩, ⟨65, "fine"⟩, ⟨75, "good"⟩, ⟨60, "flat"⟩, ⟨55, "slow"⟩,
      ⟨50, "weak"⟩, "solid session", "opening", "closing"⟩ (by decide)
    "Here you go:\n".data "\nThanks!".data
    (by decide) (by decide) (by decide) (by decide)).2.2.2
